import Mathlib

/-!
Verification of the snapd mountinfo parser (`cmd/libsnap-confine-private/mountinfo.c`)
and of the dm-verity root-hash extraction (`snap/integrity/dmverity/veritysetup.go`)
against their natural-language specification.

The C parser is embedded shallowly: a line is a `List Char` (C strings contain no
interior NUL, so the end of the list plays the role of the NUL terminator; reading
past the end yields `NUL`, as reading the terminator does in C). The single
allocation `calloc(1, sizeof *entry + strlen(line) + 1)` is modelled by an explicit
zero-initialised character buffer of length `line.length + 1`; every store performed
by the C code is an explicit `List.set`/`writeStr` on that buffer, and the string
fields of the resulting entry are read back out of the final buffer exactly as C
reads a NUL-terminated string starting at the field pointer.

`sscanf` conversions are embedded by their C semantics: `%d`/`%u` skip `isspace`
characters, accept an optional sign and one or more decimal digits (the converted
value is reduced to the 32-bit signed/unsigned range, matching assignment to
`int`/`unsigned` on a 64-bit glibc target); `%s` skips `isspace` characters and
reads a maximal non-whitespace run, failing at end of input; a whitespace directive
in the format skips a (possibly empty) whitespace run; a literal `:` must match the
next character exactly; `%n` records the number of characters consumed. Adjacent
whitespace-skipping steps of the format `"%d %d %u:%u %n"` are merged where the
conversion itself already skips whitespace first (same consumed set, same result).
-/

namespace Snapd

/-- The NUL character, used as the C string terminator in the buffer model. -/
def NUL : Char := Char.ofNat 0

/-- C `isspace` in the C locale (the set `sscanf` skips for whitespace). -/
def isWs (c : Char) : Bool :=
  c = ' ' || c = '\t' || c = '\n' || Char.ofNat 11 = c || Char.ofNat 12 = c || c = '\r'

/-- Reading `line[i]` in C: past the end of the list this reads the NUL terminator. -/
def lineGet (line : List Char) (i : Nat) : Char := line.getD i NUL

/-- Maximal run of decimal digits at the head of `s` (what `%d`/`%u` consume after the sign). -/
def digitRun (s : List Char) : List Char := s.takeWhile (fun c => c.isDigit)

/-- Value of a most-significant-first digit string. -/
def digitsVal (ds : List Char) : Nat := ds.foldl (fun a c => a * 10 + (c.toNat - 48)) 0

/-- Length of the whitespace run at the head of `s` (what a format-string blank consumes). -/
def wsCount (s : List Char) : Nat := (s.takeWhile isWs).length

/-- One `%d` (or `%u`) conversion of `sscanf`: skip whitespace, optional sign, one or
more digits; returns the (unbounded) signed value and the number of characters
consumed, or `none` on a matching failure. -/
def scanInt (s : List Char) : Option (Int × Nat) :=
  let w := wsCount s
  let r := s.dropWhile isWs
  let sg : Int := if r.headD NUL = '-' then -1 else 1
  let sk : Nat := if r.headD NUL = '-' || r.headD NUL = '+' then 1 else 0
  let ds := digitRun (r.drop sk)
  if ds.isEmpty then none else some (sg * digitsVal ds, w + sk + ds.length)

/-- Reduction of the converted value on assignment to a C `int` (32-bit two's complement). -/
def toInt32 (v : Int) : Int :=
  let m := v % (2 ^ 32 : Int)
  if m < 2 ^ 31 then m else m - 2 ^ 32

/-- Reduction of the converted value on assignment to a C `unsigned` (32 bits). -/
def toUInt32 (v : Int) : Nat := (v % (2 ^ 32 : Int)).toNat

/-- The conversion `sscanf(line, "%d %d %u:%u %n", ...)` from `sc_parse_mountinfo_entry`:
four numeric fields and the resulting offset; `none` when fewer than four convert. -/
def scanNumeric (line : List Char) : Option ((Int × Int × Nat × Nat) × Nat) :=
  match scanInt line with
  | none => none
  | some (a, o1) =>
    match scanInt (line.drop o1) with
    | none => none
    | some (b, d2) =>
      let o2 := o1 + d2
      match scanInt (line.drop o2) with
      | none => none
      | some (c, d3) =>
        let o3 := o2 + d3
        if lineGet line o3 = ':' then
          match scanInt (line.drop (o3 + 1)) with
          | none => none
          | some (d, d4) =>
            let o4 := o3 + 1 + d4
            some ((toInt32 a, toInt32 b, toUInt32 c, toUInt32 d), o4 + wsCount (line.drop o4))
        else none

/-- One `%s%n` conversion of `sscanf` on a suffix: skip whitespace, read a maximal
nonempty non-whitespace run; returns the token and the characters consumed. -/
def scanTok (s : List Char) : Option (List Char × Nat) :=
  let w := wsCount s
  let t := (s.dropWhile isWs).takeWhile (fun c => !isWs c)
  if t.isEmpty then none else some (t, w + t.length)

/-- Parser state: the entry's backing buffer `line_buf` and the current input offset. -/
structure PS where
  buf : List Char
  offset : Nat
deriving Repr, DecidableEq

/-- Store of the token plus its NUL terminator into the buffer at `off`
(what `sscanf("%s")` writes through the field pointer). -/
def writeStr (buf : List Char) (off : Nat) : List Char → List Char
  | [] => buf.set off NUL
  | c :: cs => writeStr (buf.set off c) (off + 1) cs

/-- Reading the C string that starts at offset `off` of the buffer. -/
def bufString (buf : List Char) (off : Nat) : List Char :=
  (buf.drop off).takeWhile (fun c => c != NUL)

/-- Embedding of `parse_next_string_field`: returns the field's buffer offset (the C
field pointer) and the updated state, or `none` when `sscanf` fails. The special
case for a leading `' '` records an empty field; otherwise `%s%n` scans a token,
writes it (NUL-terminated) at the current offset, and one trailing `' '` is consumed. -/
def parse_next_string_field (line : List Char) (s : PS) : Option (Nat × PS) :=
  if lineGet line s.offset = ' ' then
    some (s.offset, ⟨s.buf.set s.offset NUL, s.offset + 1⟩)
  else
    match scanTok (line.drop s.offset) with
    | none => none
    | some (t, d) =>
      let o := s.offset + d
      let o' := if lineGet line o = ' ' then o + 1 else o
      some (s.offset, ⟨writeStr s.buf s.offset t, o'⟩)

theorem lineGet_space_lt {line : List Char} {i : Nat} (h : lineGet line i = ' ') :
    i < line.length := by
  by_contra hn
  have : lineGet line i = NUL := by
    simp [lineGet, List.getD_eq_getElem?_getD, List.getElem?_eq_none (by omega : line.length ≤ i)]
  rw [this] at h
  exact absurd h (by decide)

theorem takeWhile_length_le (p : Char → Bool) : ∀ l : List Char, (l.takeWhile p).length ≤ l.length
  | [] => by simp
  | c :: l => by
    by_cases h : p c
    · simpa [List.takeWhile_cons, h] using takeWhile_length_le p l
    · simp [List.takeWhile_cons, h]

/-- Exact description of a successful `scanTok`. -/
theorem scanTok_eq {s : List Char} {t : List Char} {d : Nat}
    (h : scanTok s = some (t, d)) :
    t = (s.dropWhile isWs).takeWhile (fun c => !isWs c) ∧ d = wsCount s + t.length ∧ t ≠ [] := by
  unfold scanTok at h
  by_cases he : ((s.dropWhile isWs).takeWhile (fun c => !isWs c)).isEmpty
  · simp [he] at h
  · simp only [he, if_false] at h
    have h' := Option.some.inj h
    have ht : (s.dropWhile isWs).takeWhile (fun c => !isWs c) = t := congrArg Prod.fst h'
    have hd : wsCount s + ((s.dropWhile isWs).takeWhile (fun c => !isWs c)).length = d :=
      congrArg Prod.snd h'
    have hne : (s.dropWhile isWs).takeWhile (fun c => !isWs c) ≠ [] := by
      simpa [List.isEmpty_iff] using he
    rw [ht] at hd hne
    exact ⟨ht.symm, hd.symm, hne⟩

theorem scanTok_bounds {s : List Char} {t : List Char} {d : Nat}
    (h : scanTok s = some (t, d)) : 1 ≤ d ∧ d ≤ s.length ∧ t ≠ [] := by
  obtain ⟨ht, hd, hne⟩ := scanTok_eq h
  have hpos : 0 < t.length := List.length_pos.mpr hne
  have h1 : (s.takeWhile isWs).length + (s.dropWhile isWs).length = s.length := by
    rw [← List.length_append, List.takeWhile_append_dropWhile]
  have h2 : t.length ≤ (s.dropWhile isWs).length := by
    rw [ht]; exact takeWhile_length_le _ _
  simp only [wsCount] at hd
  exact ⟨by omega, by omega, hne⟩

theorem pnsf_bounds {line : List Char} {s : PS} {f : Nat} {s' : PS}
    (h : parse_next_string_field line s = some (f, s')) :
    s.offset < s'.offset ∧ s'.offset ≤ line.length ∧ f = s.offset := by
  unfold parse_next_string_field at h
  by_cases hsp : lineGet line s.offset = ' '
  · have hlt := lineGet_space_lt hsp
    simp only [hsp, if_true, Option.some.injEq, Prod.mk.injEq] at h
    obtain ⟨hf, hs⟩ := h
    have hoff : s'.offset = s.offset + 1 := by rw [← hs]
    exact ⟨by omega, by omega, hf.symm⟩
  · simp only [hsp, if_false] at h
    cases htok : scanTok (line.drop s.offset) with
    | none => rw [htok] at h; exact absurd h (by simp)
    | some td =>
      obtain ⟨t, d⟩ := td
      rw [htok] at h
      obtain ⟨h1, h2, _⟩ := scanTok_bounds htok
      have hlen : (line.drop s.offset).length = line.length - s.offset := by simp
      have hso : s.offset ≤ line.length := by
        by_contra hn
        have hz : line.length - s.offset = 0 := by omega
        omega
      simp only [Option.some.injEq, Prod.mk.injEq] at h
      obtain ⟨hf, hs⟩ := h
      by_cases hc : lineGet line (s.offset + d) = ' '
      · have hcl := lineGet_space_lt hc
        have hoff : s'.offset = s.offset + d + 1 := by rw [← hs]; simp [hc]
        exact ⟨by omega, by omega, hf.symm⟩
      · have hoff : s'.offset = s.offset + d := by rw [← hs]; simp [hc]
        exact ⟨by omega, by omega, hf.symm⟩

/-- Iteration of the optional-fields loop of `sc_parse_mountinfo_entry`, structural
in an iteration bound: scan fields until one equals `"-"`; the separator's first
byte is zeroed and the loop stops; from the second field on, a `' '` overwrites the
byte before the field (the previous terminator in the canonical layout), re-joining
the optional fields in the buffer. -/
def optLoopF (line : List Char) : Nat → PS → Nat → Option PS
  | 0, _, _ => none
  | fuel + 1, s, k =>
    match parse_next_string_field line s with
    | none => none
    | some (f, s') =>
      if bufString s'.buf f = ['-'] then
        some ⟨s'.buf.set f NUL, s'.offset⟩
      else
        optLoopF line fuel ⟨if k > 0 then s'.buf.set (f - 1) ' ' else s'.buf, s'.offset⟩
          (k + 1)

/-- The optional-fields loop. The C loop terminates because every
`parse_next_string_field` success strictly advances the offset, which never exceeds
the line length (`pnsf_bounds`); `line.length + 1 - s.offset` iterations therefore
always suffice, and `optLoopF` runs out of fuel only at offsets where the next scan
fails anyway (`optLoop_go` below recovers the exact loop-step equation). -/
def optLoop (line : List Char) (s : PS) (k : Nat) : Option PS :=
  optLoopF line (line.length + 1 - s.offset) s k

/-- One parsed mountinfo entry (`sc_mountinfo_entry`), with the string fields read
out of the entry's buffer. -/
structure sc_mountinfo_entry where
  mount_id : Int
  parent_id : Int
  dev_major : Nat
  dev_minor : Nat
  root : List Char
  mount_dir : List Char
  mount_opts : List Char
  optional_fields : List Char
  fs_type : List Char
  mount_source : List Char
  super_opts : List Char
deriving Repr, DecidableEq

/-- The numeric conversion plus the first three string fields of
`sc_parse_mountinfo_entry` (everything before the optional-fields loop): returns the
four numeric values, the buffer offsets of `root`, `mount_dir`, `mount_opts`, and the
state at the start of the optional-fields region. -/
def parseLeading (line : List Char) : Option ((Int × Int × Nat × Nat) × Nat × Nat × Nat × PS) :=
  match scanNumeric line with
  | none => none
  | some (ids, o0) =>
    match parse_next_string_field line ⟨List.replicate (line.length + 1) NUL, o0⟩ with
    | none => none
    | some (rootOff, s1) =>
      match parse_next_string_field line s1 with
      | none => none
      | some (dirOff, s2) =>
        match parse_next_string_field line s2 with
        | none => none
        | some (optsOff, s3) => some (ids, rootOff, dirOff, optsOff, s3)

/-- Embedding of `sc_parse_mountinfo_entry`: parse the numeric fields, the three
leading string fields, the optional-fields run terminated by `"-"`, and the three
trailing string fields; on success the entry's strings are read from the final
buffer at the recorded field offsets (`optional_fields` points at the offset where
the optional region began). Any failure yields `none` (the C code frees the entry
and returns NULL). -/
def sc_parse_mountinfo_entry (line : List Char) : Option sc_mountinfo_entry :=
  match parseLeading line with
  | none => none
  | some ((a, b, c, d), rootOff, dirOff, optsOff, s3) =>
    let optOff := s3.offset
    match optLoop line s3 0 with
    | none => none
    | some s4 =>
      match parse_next_string_field line s4 with
      | none => none
      | some (fsOff, s5) =>
        match parse_next_string_field line s5 with
        | none => none
        | some (srcOff, s6) =>
          match parse_next_string_field line s6 with
          | none => none
          | some (supOff, s7) =>
            some { mount_id := a, parent_id := b, dev_major := c, dev_minor := d,
                   root := bufString s7.buf rootOff,
                   mount_dir := bufString s7.buf dirOff,
                   mount_opts := bufString s7.buf optsOff,
                   optional_fields := bufString s7.buf optOff,
                   fs_type := bufString s7.buf fsOff,
                   mount_source := bufString s7.buf srcOff,
                   super_opts := bufString s7.buf supOff }

/-- Embedding of `sc_parse_mountinfo` over an abstract line source (the list of lines
`getline` would deliver): entries are linked in line order; the first line whose
parse fails discards the whole table (`sc_free_mountinfo`) and the build fails. -/
def sc_parse_mountinfo : List (List Char) → Option (List sc_mountinfo_entry)
  | [] => some []
  | l :: ls =>
    match sc_parse_mountinfo_entry l with
    | none => none
    | some e =>
      match sc_parse_mountinfo ls with
      | none => none
      | some es => some (e :: es)

/-!
Embedding of `snap/integrity/dmverity/veritysetup.go`. Go strings and byte slices
are modelled as `List Char` (a byte slice as the rune sequence it decodes to; byte
counts are recovered through the UTF-8 size of each rune). A Go call can return a
value, return an error, or panic (`GoRes`). `bufio.Scanner` with the default
`ScanLines` split over an in-memory buffer delivers, in order, the
newline-terminated lines (without the `\n`, one preceding `\r` dropped) and a
final nonempty unterminated fragment — until a line of `bufio.MaxScanTokenSize`
(64 KiB) or more bytes without a newline overflows the scanner's buffer: then the
scan stops and `scanner.Err()` is `bufio.ErrTooLong`, the only error a read from
an in-memory buffer can produce. `strings.TrimSpace` trims the runes of
`unicode.IsSpace` (the Unicode White_Space property). -/

/-- Outcome of a Go function: a returned value, a returned error, or a panic. -/
inductive GoRes (α : Type) where
  | panic : GoRes α
  | err : List Char → GoRes α
  | ok : α → GoRes α
deriving Repr, DecidableEq

/-- Drop one terminal carriage return (the `dropCR` of `bufio.ScanLines`). -/
def dropCR (l : List Char) : List Char :=
  if l.getLast? = some '\r' then l.dropLast else l

/-- Split on every newline character, keeping empty segments (`n` newlines give
`n + 1` segments). -/
def splitNl : List Char → List (List Char)
  | [] => [[]]
  | c :: r =>
    if c = '\n' then [] :: splitNl r
    else
      match splitNl r with
      | [] => [[c]]
      | seg :: rest => (c :: seg) :: rest

/-- `bufio.MaxScanTokenSize` (64 KiB), the default buffer limit of `bufio.Scanner`. -/
def maxScanTokenSize : Nat := 65536

/-- The byte length of a Go string: the sum of the UTF-8 sizes of its runes. -/
def utf8Len (l : List Char) : Nat := (l.map (fun c => c.utf8Size)).sum

/-- One pass of `bufio.Scanner`/`bufio.ScanLines` over the newline-split segments
of the input: each newline-terminated segment below the buffer limit is a token
(its one trailing `\r` dropped); a segment of `bufio.MaxScanTokenSize` bytes or
more holds no newline within the full buffer, so the scan stops there with
`bufio.ErrTooLong` (`true` in the second component) and delivers no further
token; the final unterminated fragment is a token when nonempty and below the
limit, stops the scan with `ErrTooLong` when over it, and is no token when
empty. -/
def scanTokens : List (List Char) → List (List Char) × Bool
  | [] => ([], false)
  | [last] =>
    if maxScanTokenSize ≤ utf8Len last then ([], true)
    else if last = [] then ([], false)
    else ([dropCR last], false)
  | seg :: rest =>
    if maxScanTokenSize ≤ utf8Len seg then ([], true)
    else
      let p := scanTokens rest
      (dropCR seg :: p.1, p.2)

/-- The sequence of tokens `bufio.Scanner` delivers to the loop of
`getRootHashFromOutput` (the lines scanned before the scan ends, cleanly or with
`ErrTooLong`). -/
def scanLines (out : List Char) : List (List Char) := (scanTokens (splitNl out)).1

/-- Whether the scan of the output ends with `scanner.Err() = bufio.ErrTooLong`
(a line of 64 KiB or more): read after the scanning loop at veritysetup.go:54. -/
def scanErrTooLong (out : List Char) : Bool := (scanTokens (splitNl out)).2

/-- The test `strings.HasPrefix(line, "Root hash")`. -/
def matchesRH (l : List Char) : Bool := "Root hash".toList.isPrefixOf l

/-- The call `strings.SplitN(line, ":", 2)`: `none` when the line has no colon (the
split has a single element and index `[1]` is out of range); otherwise the text
before the first colon and the text after it. -/
def colonSplit (l : List Char) : Option (List Char × List Char) :=
  if ':' ∈ l then
    some (l.takeWhile (fun c => c ≠ ':'), (l.dropWhile (fun c => c ≠ ':')).tail)
  else none

/-- Go `unicode.IsSpace`: the Unicode White_Space property (the
`unicode.White_Space` range table — `\t`–`\r`, space, NEL, NBSP, Ogham space
mark, U+2000–U+200A, line and paragraph separator, narrow no-break space, medium
mathematical space, ideographic space). -/
def goIsSpace (c : Char) : Bool :=
  (9 ≤ c.toNat && c.toNat ≤ 13) || c.toNat = 32 || c.toNat = 133 || c.toNat = 160 ||
  c.toNat = 5760 || (8192 ≤ c.toNat && c.toNat ≤ 8202) || c.toNat = 8232 ||
  c.toNat = 8233 || c.toNat = 8239 || c.toNat = 8287 || c.toNat = 12288

/-- The call `strings.TrimSpace`: drop leading and trailing runes satisfying
`unicode.IsSpace`. -/
def trimGo (l : List Char) : List Char :=
  ((l.dropWhile goIsSpace).reverse.dropWhile goIsSpace).reverse

/-- The scanning loop of `getRootHashFromOutput`: every line beginning with
`Root hash` overwrites the accumulator with the trimmed text after the line's
first colon; a matching line without a colon makes the indexing
`strings.SplitN(line, ":", 2)[1]` panic (`none`). -/
def rootHashScan : List (List Char) → List Char → Option (List Char)
  | [], acc => some acc
  | l :: ls, acc =>
    if matchesRH l then
      match colonSplit l with
      | none => none
      | some (_, v) => rootHashScan ls (trimGo v)
    else rootHashScan ls acc

/-- Embedding of `getRootHashFromOutput`: run the scanning loop over the lines
the scanner delivers (a colonless `Root hash` line among them panics inside the
loop); after the loop, a scan ended by `bufio.ErrTooLong` returns that error
(veritysetup.go:54-56), and otherwise an empty accumulated value fails with
`empty root hash`. -/
def getRootHashFromOutput (output : List Char) : GoRes (List Char) :=
  match rootHashScan (scanLines output) [] with
  | none => GoRes.panic
  | some h =>
    if scanErrTooLong output then GoRes.err "bufio.Scanner: token too long".toList
    else if h.isEmpty then GoRes.err "empty root hash".toList
    else GoRes.ok h

/-- The dm-verity data returned by `Format` (only the root hash). -/
structure Info where
  RootHash : List Char
deriving Repr, DecidableEq

/-- Embedding of `Format`, abstracted over the external `veritysetup format`
invocation: the argument is the outcome of `cmd.CombinedOutput()` (an error, or
the combined output text). On command failure the error is propagated; otherwise
the root hash is extracted from the output. -/
def Format (cmdResult : Except (List Char) (List Char)) : GoRes Info :=
  match cmdResult with
  | Except.error e => GoRes.err e
  | Except.ok output =>
    match getRootHashFromOutput output with
    | GoRes.panic => GoRes.panic
    | GoRes.err e => GoRes.err e
    | GoRes.ok h => GoRes.ok { RootHash := h }

/-- Modelled from the spec (for comparison with the code, claim C1): the extracted
value is taken from the FIRST line beginning with `Root hash`, as the text after
that line's first colon, trimmed. -/
def specFirstRootHash (output : List Char) : Option (List Char) :=
  match (scanLines output).filter (fun l => matchesRH l) with
  | [] => none
  | l :: _ => (colonSplit l).map (fun p => trimGo p.2)

/-- The trimmed after-colon value of the LAST line beginning with `Root hash`
(what the code actually keeps), `none` when there is no such line or it has no
colon. -/
def lastRootHash (ls : List (List Char)) : Option (List Char) :=
  match (ls.filter (fun l => matchesRH l)).getLast? with
  | none => none
  | some l => (colonSplit l).map (fun p => trimGo p.2)

/-- Every line of the output that begins with `Root hash` contains a colon (the
proviso under which the scanning loop cannot panic). -/
def rhColonOK (output : List Char) : Bool :=
  (scanLines output).all (fun l => !matchesRH l || decide (':' ∈ l))

/-- The colon proviso lifted to the outcome of the external command: on command
failure the output is never scanned, so the proviso holds vacuously. -/
def formatColonOK : Except (List Char) (List Char) → Bool
  | Except.error _ => true
  | Except.ok output => rhColonOK output

/-!
Auxiliary notions used to state the claims: whitespace-delimited tokens of a line,
the canonical grammar of section 6 of the spec (fields separated by single spaces),
the re-joined line of the round-trip property, and the write footprint of the
parser (the buffer indices it stores to), for the frame claim. -/

theorem dropWhile_length_le (p : Char → Bool) : ∀ l : List Char, (l.dropWhile p).length ≤ l.length
  | [] => by simp
  | c :: l => by
    by_cases h : p c
    · simp only [List.dropWhile_cons, h, if_true]
      have := dropWhile_length_le p l
      simp only [List.length_cons]
      omega
    · simp [List.dropWhile_cons, h]

/-- The whitespace-delimited tokens of a line, structural in a bound on the number
of characters still to examine. -/
def lineWordsF : Nat → List Char → List (List Char)
  | 0, _ => []
  | _, [] => []
  | fuel + 1, c :: r =>
    if isWs c then lineWordsF fuel r
    else (c :: r.takeWhile (fun x => !isWs x)) ::
      lineWordsF fuel (r.dropWhile (fun x => !isWs x))

/-- The whitespace-delimited tokens of a line (every step consumes at least one
character, so `l.length` steps always suffice). -/
def lineWords (l : List Char) : List (List Char) := lineWordsF l.length l

/-- Absence of a `-` separator token after the point where the three leading string
fields end: if the numeric conversion or one of the three leading fields already
fails this is vacuously true (the entry fails regardless); otherwise no
whitespace-delimited token of the rest of the line equals `-`. -/
def noSeparatorAfterFields (line : List Char) : Bool :=
  match parseLeading line with
  | none => true
  | some (_, _, _, _, s3) => (lineWords (line.drop s3.offset)).all (fun t => t ≠ ['-'])

/-- Canonical decimal numeral of a natural number. -/
def natChars (n : Nat) : List Char :=
  if n = 0 then ['0'] else ((Nat.digits 10 n).map (fun d => Char.ofNat (48 + d))).reverse

/-- Decimal rendering of an integer (C `%d` output format). -/
def intChars (i : Int) : List Char :=
  if i < 0 then '-' :: natChars (-i).toNat else natChars i.toNat

/-- A well-formed field token: whitespace-free, NUL-free (possibly empty). -/
def isTok (t : List Char) : Bool := t.all (fun c => !isWs c && c != NUL)

/-- The optional-fields region of a canonical line: every optional token followed
by a single space (the `-` separator and the rest follow). -/
def renderOpts : List (List Char) → List Char
  | [] => []
  | t :: ts => t ++ ' ' :: renderOpts ts

/-- A line in the canonical grammar of spec section 6: single-space-separated
fields, `MAJOR:MINOR` colon-joined, optional fields before a literal `-`. -/
def mkLine (m p maj mnr : Nat) (root dir opts : List Char) (optFs : List (List Char))
    (fs src sup : List Char) : List Char :=
  natChars m ++ ' ' :: natChars p ++ ' ' :: natChars maj ++ ':' :: natChars mnr ++
    ' ' :: root ++ ' ' :: dir ++ ' ' :: opts ++ ' ' :: renderOpts optFs ++
    '-' :: ' ' :: fs ++ ' ' :: src ++ ' ' :: sup

/-- The re-joined line of the round-trip property (claim C4): numeric prefix
`"{mount_id} {parent_id} {dev_major}:{dev_minor} "`, then `root`, `mount_dir`,
`mount_opts`, the optional fields (when non-empty), `-`, `fs_type`,
`mount_source`, `super_opts`, joined by single spaces. -/
def reconstructLine (e : sc_mountinfo_entry) : List Char :=
  intChars e.mount_id ++ ' ' :: intChars e.parent_id ++ ' ' :: natChars e.dev_major ++
    ':' :: natChars e.dev_minor ++ ' ' :: e.root ++ ' ' :: e.mount_dir ++
    ' ' :: e.mount_opts ++ (if e.optional_fields = [] then [] else ' ' :: e.optional_fields) ++
    ' ' :: '-' :: ' ' :: e.fs_type ++ ' ' :: e.mount_source ++ ' ' :: e.super_opts

/-- Content of the entry buffer from the byte before the optional-fields region on
(the terminator of `mount_opts`), for optional tokens `ts` parsed from the second
one on: each re-scanned token's preceding byte is overwritten with `' '`, the `-`
separator's first byte and terminator are NUL (proof-support characterization). -/
def optTail : List (List Char) → List Char
  | [] => [NUL, NUL, NUL]
  | t :: ts => ' ' :: t ++ optTail ts

/-- Content of the entry buffer from the first byte of the optional-fields region on
(proof-support characterization for the loop entered with `field_num = 0`, where the
byte before the region, the terminator of `mount_opts`, is left untouched). -/
def optRegion : List (List Char) → List Char
  | [] => [NUL, NUL]
  | t :: ts => t ++ optTail ts

/-- Buffer indices stored to by one `parse_next_string_field` call: the empty-field
case stores one NUL at the current offset; the `%s` case stores the token and its
terminator at the offsets starting at the current one. No store happens on failure. -/
def pnsfWrites (line : List Char) (s : PS) : List Nat :=
  if lineGet line s.offset = ' ' then [s.offset]
  else
    match scanTok (line.drop s.offset) with
    | none => []
    | some (t, _) => List.range' s.offset (t.length + 1)

/-- Buffer indices stored to by the optional-fields loop: each field's stores, the
store of `' '` over the byte before a field (from the second field on), and the
store zeroing the `-` separator's first byte. -/
def optLoopWritesF (line : List Char) : Nat → PS → Nat → List Nat
  | 0, _, _ => []
  | fuel + 1, s, k =>
    match parse_next_string_field line s with
    | none => []
    | some (f, s') =>
      if bufString s'.buf f = ['-'] then pnsfWrites line s ++ [f]
      else
        pnsfWrites line s ++ (if k > 0 then [f - 1] else []) ++
          optLoopWritesF line fuel
            ⟨if k > 0 then s'.buf.set (f - 1) ' ' else s'.buf, s'.offset⟩ (k + 1)

/-- Stores of the optional-fields loop, with the same iteration bound as `optLoop`. -/
def optLoopWrites (line : List Char) (s : PS) (k : Nat) : List Nat :=
  optLoopWritesF line (line.length + 1 - s.offset) s k

/-- Buffer indices stored to by `sc_parse_mountinfo_entry` over the whole parse,
successful or not (the numeric conversion stores only into the integer fields,
not into the character buffer). -/
def entryWrites (line : List Char) : List Nat :=
  match scanNumeric line with
  | none => []
  | some (_, o0) =>
    let s0 : PS := ⟨List.replicate (line.length + 1) NUL, o0⟩
    pnsfWrites line s0 ++
      match parse_next_string_field line s0 with
      | none => []
      | some (_, s1) =>
        pnsfWrites line s1 ++
          match parse_next_string_field line s1 with
          | none => []
          | some (_, s2) =>
            pnsfWrites line s2 ++
              match parse_next_string_field line s2 with
              | none => []
              | some (_, s3) =>
                optLoopWrites line s3 0 ++
                  match optLoop line s3 0 with
                  | none => []
                  | some s4 =>
                    pnsfWrites line s4 ++
                      match parse_next_string_field line s4 with
                      | none => []
                      | some (_, s5) =>
                        pnsfWrites line s5 ++
                          match parse_next_string_field line s5 with
                          | none => []
                          | some (_, s6) =>
                            pnsfWrites line s6 ++
                              match parse_next_string_field line s6 with
                              | none => []
                              | some (_, _) => []

/-- Concatenation of tokens with single joining spaces (the optional-fields value
of an entry parsed from a canonical line). -/
def joinSp : List (List Char) → List Char
  | [] => []
  | [t] => t
  | t :: ts => t ++ ' ' :: joinSp ts

/-!
General lemmas about lists, buffers and the scanning primitives. -/

theorem takeWhile_append_all {p : Char → Bool} :
    ∀ {A : List Char} (B : List Char), (∀ a ∈ A, p a = true) →
      (A ++ B).takeWhile p = A ++ B.takeWhile p
  | [], B, _ => by simp
  | a :: A, B, h => by
    have ha : p a = true := h a (by simp)
    simp only [List.cons_append, List.takeWhile_cons, ha, if_true, List.cons.injEq, true_and]
    exact takeWhile_append_all B (fun x hx => h x (by simp [hx]))

theorem dropWhile_append_all {p : Char → Bool} :
    ∀ {A : List Char} (B : List Char), (∀ a ∈ A, p a = true) →
      (A ++ B).dropWhile p = B.dropWhile p
  | [], B, _ => by simp
  | a :: A, B, h => by
    have ha : p a = true := h a (by simp)
    simp only [List.cons_append, List.dropWhile_cons, ha, if_true]
    exact dropWhile_append_all B (fun x hx => h x (by simp [hx]))

theorem takeWhile_head_false {p : Char → Bool} {c : Char} (l : List Char) (h : p c = false) :
    (c :: l).takeWhile p = [] := by
  simp [List.takeWhile_cons, h]

theorem dropWhile_head_false {p : Char → Bool} {c : Char} (l : List Char) (h : p c = false) :
    (c :: l).dropWhile p = c :: l := by
  simp [List.dropWhile_cons, h]

theorem set_append_len : ∀ (P : List Char) (x : Char) (Q : List Char) (c : Char),
    (P ++ x :: Q).set P.length c = P ++ c :: Q
  | [], _, _, _ => by simp
  | a :: P, x, Q, c => by
    simp only [List.cons_append, List.length_cons, List.set_cons_succ, List.cons.injEq, true_and]
    exact set_append_len P x Q c

theorem writeStr_append : ∀ (t P pad : List Char), t.length + 1 ≤ pad.length →
    writeStr (P ++ pad) P.length t = P ++ t ++ NUL :: pad.drop (t.length + 1)
  | [], P, pad, h => by
    match pad, h with
    | q :: pad', _ =>
      simp only [writeStr, List.length_nil]
      rw [set_append_len P q pad' NUL]
      simp
  | c :: cs, P, pad, h => by
    match pad, h with
    | q :: pad', h =>
      simp only [writeStr]
      rw [set_append_len P q pad' c]
      have hre : P ++ c :: pad' = (P ++ [c]) ++ pad' := by simp
      have hlen : P.length + 1 = (P ++ [c]).length := by simp
      rw [hre, hlen, writeStr_append cs (P ++ [c]) pad'
        (by simp only [List.length_cons] at h; omega)]
      simp

theorem bufString_at (A f B : List Char) (hf : ∀ c ∈ f, (c != NUL) = true) :
    bufString (A ++ (f ++ NUL :: B)) A.length = f := by
  unfold bufString
  rw [List.drop_left A (f ++ NUL :: B)]
  rw [takeWhile_append_all (NUL :: B) hf]
  rw [takeWhile_head_false B (by simp)]
  simp

theorem lineGet_drop (line : List Char) (o k : Nat) :
    lineGet line (o + k) = (line.drop o).getD k NUL := by
  simp [lineGet, List.getD_eq_getElem?_getD, List.getElem?_drop]

theorem lineGet_of_drop {line suffix : List Char} {o : Nat} (h : line.drop o = suffix) (k : Nat) :
    lineGet line (o + k) = suffix.getD k NUL := by
  rw [lineGet_drop, h]

theorem drop_add_of_drop {line suffix : List Char} {o : Nat} (h : line.drop o = suffix) (k : Nat) :
    line.drop (o + k) = suffix.drop k := by
  rw [← List.drop_drop, h]

theorem lineGet_past_end {line : List Char} {i : Nat} (h : line.length ≤ i) :
    lineGet line i = NUL := by
  simp [lineGet, List.getD_eq_getElem?_getD, List.getElem?_eq_none h]

theorem isTok_mem {t : List Char} (h : isTok t = true) :
    ∀ c ∈ t, isWs c = false ∧ (c != NUL) = true := by
  intro c hc
  have h2 := (List.all_eq_true.mp h) c hc
  simp only [Bool.and_eq_true, Bool.not_eq_true'] at h2
  exact h2

theorem length_renderOpts : ∀ ts : List (List Char),
    (renderOpts ts).length = (ts.map List.length).sum + ts.length
  | [] => rfl
  | t :: ts => by
    simp only [renderOpts, List.length_append, List.length_cons, List.map_cons, List.sum_cons,
      length_renderOpts ts]
    omega

theorem length_optTail : ∀ ts : List (List Char),
    (optTail ts).length = (renderOpts ts).length + 3
  | [] => rfl
  | t :: ts => by
    simp only [optTail, renderOpts, List.length_cons, List.length_append,
      length_optTail ts]
    omega

theorem takeWhile_optRegion : ∀ (ts : List (List Char)) (t X : List Char),
    (∀ c ∈ t, (c != NUL) = true) → (∀ u ∈ ts, ∀ c ∈ u, (c != NUL) = true) →
    (t ++ (optTail ts ++ X)).takeWhile (fun c => c != NUL) = joinSp (t :: ts)
  | [], t, X, ht, _ => by
    rw [takeWhile_append_all (optTail [] ++ X) ht]
    simp only [optTail, List.cons_append]
    rw [takeWhile_head_false _ (by simp)]
    simp [joinSp]
  | t' :: ts', t, X, ht, hts => by
    rw [takeWhile_append_all (optTail (t' :: ts') ++ X) ht]
    simp only [optTail, List.cons_append, List.append_assoc]
    rw [List.takeWhile_cons]
    have hsp : ((' ' : Char) != NUL) = true := by decide
    simp only [hsp, if_true]
    rw [takeWhile_optRegion ts' t' X (hts t' (by simp)) (fun u hu => hts u (by simp [hu]))]
    have : joinSp (t :: t' :: ts') = t ++ ' ' :: joinSp (t' :: ts') := by
      cases ts' <;> rfl
    rw [this]

theorem getD_append_len : ∀ (A : List Char) (x : Char) (B : List Char) (d : Char),
    (A ++ x :: B).getD A.length d = x
  | [], _, _, _ => rfl
  | _ :: A, x, B, d => getD_append_len A x B d

/-!
Behaviour of the scanning primitives on a canonical (single-space separated)
line suffix. -/

theorem scanTok_field {f rest : List Char} (hf : isTok f = true) (hne : f ≠ []) :
    scanTok (f ++ ' ' :: rest) = some (f, f.length) := by
  cases f with
  | nil => exact absurd rfl hne
  | cons c f' =>
    have hc := (isTok_mem hf c (by simp)).1
    have hall : ∀ a ∈ c :: f', (!isWs a) = true := fun a ha => by
      simp [(isTok_mem hf a ha).1]
    unfold scanTok
    simp only [List.cons_append]
    rw [wsCount, takeWhile_head_false _ hc, dropWhile_head_false _ hc]
    rw [show c :: (f' ++ ' ' :: rest) = (c :: f') ++ ' ' :: rest from rfl]
    rw [takeWhile_append_all (' ' :: rest) hall, takeWhile_head_false rest (by decide)]
    simp

theorem scanTok_last {f : List Char} (hf : isTok f = true) (hne : f ≠ []) :
    scanTok f = some (f, f.length) := by
  cases f with
  | nil => exact absurd rfl hne
  | cons c f' =>
    have hc := (isTok_mem hf c (by simp)).1
    have hall : ∀ a ∈ c :: f', (!isWs a) = true := fun a ha => by
      simp [(isTok_mem hf a ha).1]
    unfold scanTok
    rw [wsCount, takeWhile_head_false _ hc, dropWhile_head_false _ hc]
    rw [show c :: f' = (c :: f') ++ [] from by simp]
    rw [takeWhile_append_all [] hall]
    simp

theorem pnsf_field_step {line : List Char} {o : Nat} {f rest : List Char} (buf : List Char)
    (hdrop : line.drop o = f ++ ' ' :: rest) (hf : isTok f = true) :
    parse_next_string_field line ⟨buf, o⟩ =
      some (o, ⟨writeStr buf o f, o + f.length + 1⟩) := by
  cases f with
  | nil =>
    have hget : lineGet line o = ' ' := by
      have h0 := lineGet_of_drop hdrop 0
      simpa using h0
    unfold parse_next_string_field
    rw [if_pos hget]
    rfl
  | cons c f' =>
    have hc := isTok_mem hf c (by simp)
    have hget : lineGet line o = c := by
      have h0 := lineGet_of_drop hdrop 0
      simpa using h0
    have hcs : ¬(c = ' ') := by
      intro he
      rw [he] at hc
      exact absurd hc.1 (by decide)
    have hne : lineGet line o ≠ ' ' := by rw [hget]; exact hcs
    unfold parse_next_string_field
    rw [if_neg hne]
    rw [hdrop, scanTok_field hf (by simp)]
    have hcons : lineGet line (o + (c :: f').length) = ' ' := by
      have hg := lineGet_of_drop hdrop (c :: f').length
      rw [hg, getD_append_len]
    simp only [hcons, if_true]

theorem pnsf_field_last {line : List Char} {o : Nat} {f : List Char} (buf : List Char)
    (hdrop : line.drop o = f) (hf : isTok f = true) (hne : f ≠ []) :
    parse_next_string_field line ⟨buf, o⟩ =
      some (o, ⟨writeStr buf o f, o + f.length⟩) := by
  cases f with
  | nil => exact absurd rfl hne
  | cons c f' =>
    have hc := isTok_mem hf c (by simp)
    have hget : lineGet line o = c := by
      have h0 := lineGet_of_drop hdrop 0
      simpa using h0
    have hcs : ¬(c = ' ') := by
      intro he
      rw [he] at hc
      exact absurd hc.1 (by decide)
    have hnsp : lineGet line o ≠ ' ' := by rw [hget]; exact hcs
    have holen : o + (c :: f').length = line.length := by
      have h1 : (line.drop o).length = line.length - o := by simp
      rw [hdrop] at h1
      have h2 : o < line.length := by
        by_contra hcon
        have : line.drop o = [] := List.drop_of_length_le (by omega)
        rw [hdrop] at this
        exact absurd this (by simp)
      simp only [List.length_cons] at h1 ⊢
      omega
    have hpast : lineGet line (o + (c :: f').length) = NUL := by
      rw [holen]
      exact lineGet_past_end (by omega)
    unfold parse_next_string_field
    rw [if_neg hnsp]
    rw [hdrop, scanTok_last hf (by simp)]
    have hnoteq : ¬(lineGet line (o + (c :: f').length) = ' ') := by
      rw [hpast]; decide
    simp only [hnoteq, if_false]

/-!
Unfolding lemmas for the optional-fields loop. -/

theorem pnsf_none_past {line : List Char} {s : PS} (h : line.length ≤ s.offset) :
    parse_next_string_field line s = none := by
  have hg : lineGet line s.offset = NUL := lineGet_past_end (by omega)
  have hd : line.drop s.offset = [] := List.drop_of_length_le (by omega)
  unfold parse_next_string_field
  rw [if_neg (by rw [hg]; decide), hd]
  rfl

theorem optLoopF_fuel {line : List Char} : ∀ (a b : Nat) (s : PS) (k : Nat),
    line.length + 1 - s.offset ≤ a → line.length + 1 - s.offset ≤ b →
    optLoopF line a s k = optLoopF line b s k := by
  intro a
  induction a with
  | zero =>
    intro b s k ha hb
    have hp := @pnsf_none_past line s (by omega)
    cases b with
    | zero => rfl
    | succ m => simp only [optLoopF, hp]
  | succ n ih =>
    intro b s k ha hb
    cases b with
    | zero =>
      have hp := @pnsf_none_past line s (by omega)
      simp only [optLoopF, hp]
    | succ m =>
      simp only [optLoopF]
      cases hp : parse_next_string_field line s with
      | none => rfl
      | some v =>
        obtain ⟨f, s'⟩ := v
        obtain ⟨h1, h2, _⟩ := pnsf_bounds hp
        dsimp only
        by_cases hd : bufString s'.buf f = ['-']
        · rw [if_pos hd, if_pos hd]
        · rw [if_neg hd, if_neg hd]
          refine ih m ⟨if k > 0 then s'.buf.set (f - 1) ' ' else s'.buf, s'.offset⟩ (k + 1) ?_ ?_
          · show line.length + 1 - s'.offset ≤ n
            omega
          · show line.length + 1 - s'.offset ≤ m
            omega

theorem optLoop_dash {line : List Char} {s : PS} {k : Nat} {f : Nat} {s' : PS}
    (hp : parse_next_string_field line s = some (f, s'))
    (hd : bufString s'.buf f = ['-']) :
    optLoop line s k = some ⟨s'.buf.set f NUL, s'.offset⟩ := by
  obtain ⟨h1, h2, _⟩ := pnsf_bounds hp
  unfold optLoop
  obtain ⟨m, hm⟩ : ∃ m, line.length + 1 - s.offset = m + 1 :=
    ⟨line.length - s.offset, by omega⟩
  rw [hm]
  simp only [optLoopF, hp]
  rw [if_pos hd]

theorem optLoop_go {line : List Char} {s : PS} {k : Nat} {f : Nat} {s' : PS}
    (hp : parse_next_string_field line s = some (f, s'))
    (hd : ¬ bufString s'.buf f = ['-']) :
    optLoop line s k =
      optLoop line ⟨if k > 0 then s'.buf.set (f - 1) ' ' else s'.buf, s'.offset⟩ (k + 1) := by
  obtain ⟨h1, h2, _⟩ := pnsf_bounds hp
  unfold optLoop
  obtain ⟨m, hm⟩ : ∃ m, line.length + 1 - s.offset = m + 1 :=
    ⟨line.length - s.offset, by omega⟩
  rw [hm]
  simp only [optLoopF, hp]
  rw [if_neg hd]
  refine optLoopF_fuel m _ _ (k + 1) ?_ le_rfl
  show line.length + 1 - s'.offset ≤ m
  omega

theorem optLoop_fail {line : List Char} {s : PS} {k : Nat}
    (hp : parse_next_string_field line s = none) :
    optLoop line s k = none := by
  unfold optLoop
  cases h : line.length + 1 - s.offset with
  | zero => rfl
  | succ m => simp only [optLoopF, hp]

theorem lineWordsF_mono : ∀ (a : Nat) (l : List Char) (b : Nat),
    l.length ≤ a → l.length ≤ b → lineWordsF a l = lineWordsF b l := by
  intro a
  induction a with
  | zero =>
    intro l b ha hb
    have hl : l = [] := List.eq_nil_of_length_eq_zero (by omega)
    subst hl
    cases b <;> rfl
  | succ n ih =>
    intro l b ha hb
    cases l with
    | nil => cases b <;> rfl
    | cons c r =>
      cases b with
      | zero => simp at hb
      | succ m =>
        simp only [lineWordsF]
        simp only [List.length_cons] at ha hb
        by_cases hws : isWs c
        · rw [if_pos hws, if_pos hws]
          exact ih r m (by omega) (by omega)
        · rw [if_neg hws, if_neg hws]
          have hdw := dropWhile_length_le (fun x => !isWs x) r
          refine congrArg _ ?_
          exact ih (r.dropWhile (fun x => !isWs x)) m (by omega) (by omega)

theorem lineWords_nil : lineWords [] = [] := rfl

theorem lineWords_cons (c : Char) (r : List Char) :
    lineWords (c :: r) =
      if isWs c then lineWords r
      else (c :: r.takeWhile (fun x => !isWs x)) ::
        lineWords (r.dropWhile (fun x => !isWs x)) := by
  show lineWordsF (r.length + 1) (c :: r) = _
  simp only [lineWordsF]
  by_cases hws : isWs c
  · rw [if_pos hws, if_pos hws]; rfl
  · rw [if_neg hws, if_neg hws]
    refine congrArg _ ?_
    exact lineWordsF_mono r.length _ _ (dropWhile_length_le _ _) le_rfl

/-- Run of the optional-fields loop over a canonical optional region (each token
followed by one space, then `-`, a space, and the rest): called from the second
field on (`0 < k`) with the previous terminator at buffer position `P.length`,
it terminates at the separator leaving exactly `optTail ts` in the buffer. -/
theorem optLoop_canonical : ∀ (ts : List (List Char)) {line : List Char} (P : List Char)
    (q : Nat) {rest : List Char} (k : Nat),
    (∀ t ∈ ts, isTok t = true ∧ t ≠ ['-']) →
    line.drop (P.length + 1) = renderOpts ts ++ '-' :: ' ' :: rest →
    P.length + 1 + q = line.length + 1 →
    0 < k ∨ ts = [] →
    optLoop line ⟨P ++ NUL :: List.replicate q NUL, P.length + 1⟩ k =
      some ⟨P ++ optTail ts ++ List.replicate (q + 1 - (optTail ts).length) NUL,
            P.length + (optTail ts).length⟩
  | [], line, P, q, rest, k, _, hdrop, hq, _ => by
    have hlen := congrArg List.length hdrop
    simp only [List.length_drop, renderOpts, List.nil_append, List.length_cons] at hlen
    have hstep := @pnsf_field_step line (P.length + 1) ['-'] rest
      (P ++ NUL :: List.replicate q NUL) (by simpa using hdrop) (by decide)
    have hwr : writeStr (P ++ NUL :: List.replicate q NUL) (P.length + 1) ['-'] =
        P ++ NUL :: '-' :: NUL :: List.replicate (q - 2) NUL := by
      have hw := writeStr_append ['-'] (P ++ [NUL]) (List.replicate q NUL)
        (by simp; omega)
      simp only [List.append_assoc, List.singleton_append, List.cons_append,
        List.length_append, List.length_cons, List.length_nil, List.drop_replicate,
        List.nil_append] at hw
      rw [show (q - (1 + 1)) = q - 2 from by omega] at hw
      exact hw
    have hbs : bufString (P ++ NUL :: '-' :: NUL :: List.replicate (q - 2) NUL)
        (P.length + 1) = ['-'] := by
      have hb := bufString_at (P ++ [NUL]) ['-'] (List.replicate (q - 2) NUL) (by decide)
      simp only [List.append_assoc, List.singleton_append, List.cons_append,
        List.length_append, List.length_cons, List.length_nil, List.nil_append] at hb
      exact hb
    rw [hwr] at hstep
    rw [optLoop_dash hstep hbs]
    have hset : (P ++ NUL :: '-' :: NUL :: List.replicate (q - 2) NUL).set
        (P.length + 1) NUL = P ++ NUL :: NUL :: NUL :: List.replicate (q - 2) NUL := by
      have hs := set_append_len (P ++ [NUL]) '-' (NUL :: List.replicate (q - 2) NUL) NUL
      simp only [List.append_assoc, List.singleton_append, List.cons_append,
        List.length_append, List.length_cons, List.length_nil, List.nil_append] at hs
      exact hs
    rw [hset]
    rw [show (optTail []).length = 3 from rfl]
    rw [show (q + 1 - 3) = q - 2 from by omega]
    rw [show (['-'] : List Char).length = 1 from rfl]
    rw [show P.length + 1 + 1 + 1 = P.length + 3 from by omega]
    rw [show P ++ optTail [] ++ List.replicate (q - 2) NUL =
      P ++ NUL :: NUL :: NUL :: List.replicate (q - 2) NUL from by simp [optTail]]
  | t :: ts', line, P, q, rest, k, hts, hdrop, hq, hk => by
    have ht := hts t (by simp)
    have hlen := congrArg List.length hdrop
    simp only [List.length_drop, renderOpts, List.length_append, List.length_cons] at hlen
    have hO := length_optTail ts'
    have hR := length_renderOpts ts'
    have hdrop' : line.drop (P.length + 1) =
        t ++ ' ' :: (renderOpts ts' ++ '-' :: ' ' :: rest) := by
      rw [hdrop]; simp [renderOpts]
    have hstep := @pnsf_field_step line (P.length + 1) t
      (renderOpts ts' ++ '-' :: ' ' :: rest)
      (P ++ NUL :: List.replicate q NUL) hdrop' ht.1
    have hlen' := congrArg List.length hdrop'
    simp only [List.length_drop, List.length_append, List.length_cons] at hlen'
    have hqbig : t.length + 1 ≤ q := by omega
    have hwr : writeStr (P ++ NUL :: List.replicate q NUL) (P.length + 1) t =
        P ++ NUL :: (t ++ NUL :: List.replicate (q - (t.length + 1)) NUL) := by
      have hw := writeStr_append t (P ++ [NUL]) (List.replicate q NUL)
        (by simp; omega)
      simp only [List.append_assoc, List.singleton_append, List.cons_append,
        List.length_append, List.length_cons, List.length_nil, List.drop_replicate,
        List.nil_append] at hw
      exact hw
    have hbs : bufString (P ++ NUL :: (t ++ NUL :: List.replicate (q - (t.length + 1)) NUL))
        (P.length + 1) = t := by
      have hb := bufString_at (P ++ [NUL]) t (List.replicate (q - (t.length + 1)) NUL)
        (fun c hc => (isTok_mem ht.1 c hc).2)
      simp only [List.append_assoc, List.singleton_append, List.cons_append,
        List.length_append, List.length_cons, List.length_nil, List.nil_append] at hb
      exact hb
    rw [hwr] at hstep
    have hnd : ¬ bufString (P ++ NUL :: (t ++ NUL :: List.replicate (q - (t.length + 1)) NUL))
        (P.length + 1) = ['-'] := by
      rw [hbs]; exact ht.2
    have hk' : 0 < k := by
      rcases hk with hk1 | hk2
      · exact hk1
      · exact absurd hk2 (by simp)
    rw [optLoop_go hstep hnd, if_pos hk']
    rw [show P.length + 1 - 1 = P.length from rfl]
    have hset : (P ++ NUL :: (t ++ NUL :: List.replicate (q - (t.length + 1)) NUL)).set
        P.length ' ' = P ++ ' ' :: (t ++ NUL :: List.replicate (q - (t.length + 1)) NUL) :=
      set_append_len P NUL _ ' '
    rw [hset]
    have hdrop2 : line.drop ((P ++ ' ' :: t).length + 1) =
        renderOpts ts' ++ '-' :: ' ' :: rest := by
      have h3 := drop_add_of_drop hdrop' (t.length + 1)
      have h4 : (t ++ ' ' :: (renderOpts ts' ++ '-' :: ' ' :: rest)).drop (t.length + 1) =
          renderOpts ts' ++ '-' :: ' ' :: rest := by
        rw [show t ++ ' ' :: (renderOpts ts' ++ '-' :: ' ' :: rest) =
          (t ++ [' ']) ++ (renderOpts ts' ++ '-' :: ' ' :: rest) from by simp]
        rw [show t.length + 1 = (t ++ [' ']).length from by simp]
        exact List.drop_left _ _
      rw [h4] at h3
      rw [show (P ++ ' ' :: t).length + 1 = P.length + 1 + (t.length + 1) from by
        simp only [List.length_append, List.length_cons]; omega]
      exact h3
    have hq' : (P ++ ' ' :: t).length + 1 + (q - (t.length + 1)) = line.length + 1 := by
      simp only [List.length_append, List.length_cons]
      omega
    have hIH := optLoop_canonical ts' (P ++ ' ' :: t) (q - (t.length + 1)) (k + 1)
      (fun u hu => hts u (by simp [hu])) hdrop2 hq' (Or.inl (by omega))
    simp only [List.append_assoc, List.cons_append, List.length_append,
      List.length_cons, List.nil_append] at hIH
    rw [show P.length + 1 + t.length + 1 = P.length + (t.length + 1) + 1 from by omega]
    rw [hIH]
    rw [show P ++ optTail (t :: ts') ++ List.replicate (q + 1 - (optTail (t :: ts')).length) NUL
      = P ++ ' ' :: (t ++ (optTail ts' ++ List.replicate (q + 1 - (optTail (t :: ts')).length) NUL))
      from by simp [optTail]]
    rw [show (optTail (t :: ts')).length = t.length + (optTail ts').length + 1 from by
      simp only [optTail, List.length_cons, List.length_append]; omega]
    rw [show q + 1 - (t.length + (optTail ts').length + 1) =
      q - (t.length + 1) + 1 - (optTail ts').length from by omega]
    rw [show P.length + (t.length + (optTail ts').length + 1) =
      P.length + (t.length + 1) + (optTail ts').length from by omega]
termination_by ts => ts

/-!
Numeric conversion on canonical decimal numerals. -/

theorem digit_not_ws {c : Char} (h : c.isDigit = true) : isWs c = false := by
  by_contra h1
  have h2 : isWs c = true := by
    cases hb : isWs c
    · exact absurd hb h1
    · rfl
  unfold isWs at h2
  simp only [Bool.or_eq_true, decide_eq_true_eq] at h2
  rcases h2 with ((((h3 | h3) | h3) | h3) | h3) | h3 <;>
    first
      | (subst h3; exact absurd h (by decide))
      | (rw [h3] at h; exact absurd h (by decide))
      | (rw [← h3] at h; exact absurd h (by decide))

theorem digit_ne_minus {c : Char} (h : c.isDigit = true) : ¬(c = '-') := by
  intro he; rw [he] at h; exact absurd h (by decide)

theorem digit_ne_plus {c : Char} (h : c.isDigit = true) : ¬(c = '+') := by
  intro he; rw [he] at h; exact absurd h (by decide)

theorem natChars_digits (n : Nat) : ∀ c ∈ natChars n, c.isDigit = true := by
  intro c hc
  unfold natChars at hc
  by_cases h0 : n = 0
  · simp only [h0, if_true] at hc
    simp only [List.mem_singleton] at hc
    rw [hc]; decide
  · simp only [h0, if_false, List.mem_reverse, List.mem_map] at hc
    obtain ⟨d, hd, hrw⟩ := hc
    have hlt : d < 10 := Nat.digits_lt_base (by norm_num) hd
    rw [← hrw]
    interval_cases d <;> decide

theorem natChars_ne_nil (n : Nat) : natChars n ≠ [] := by
  unfold natChars
  by_cases h0 : n = 0
  · simp [h0]
  · simp only [h0, if_false, ne_eq, List.reverse_eq_nil_iff, List.map_eq_nil_iff]
    exact Nat.digits_ne_nil_iff_ne_zero.mpr h0

theorem dChar_toNat {d : Nat} (h : d < 10) : (Char.ofNat (48 + d)).toNat = 48 + d := by
  interval_cases d <;> decide

theorem digitsVal_snoc (X : List Char) (y : Char) :
    digitsVal (X ++ [y]) = digitsVal X * 10 + (y.toNat - 48) := by
  unfold digitsVal
  rw [List.foldl_append]
  rfl

theorem dv_digits : ∀ L : List Nat, (∀ d ∈ L, d < 10) →
    digitsVal ((L.map (fun d => Char.ofNat (48 + d))).reverse) = Nat.ofDigits 10 L
  | [], _ => by simp [digitsVal, Nat.ofDigits_nil]
  | d :: L', h => by
    have hd : d < 10 := h d (by simp)
    simp only [List.map_cons, List.reverse_cons]
    rw [digitsVal_snoc, dv_digits L' (fun x hx => h x (by simp [hx]))]
    rw [dChar_toNat hd, Nat.ofDigits_cons]
    omega

theorem digitsVal_natChars (n : Nat) : digitsVal (natChars n) = n := by
  unfold natChars
  by_cases h0 : n = 0
  · simp [h0, digitsVal]
  · simp only [h0, if_false]
    rw [dv_digits (Nat.digits 10 n) (fun d hd => Nat.digits_lt_base (by norm_num) hd)]
    exact Nat.ofDigits_digits 10 n

theorem scanInt_natChars {r : List Char} (n : Nat) (hr : r.takeWhile (fun c => c.isDigit) = []) :
    scanInt (natChars n ++ r) = some ((n : Int), (natChars n).length) := by
  obtain ⟨c, cs, hcons⟩ : ∃ c cs, natChars n = c :: cs := by
    cases hnc : natChars n with
    | nil => exact absurd hnc (natChars_ne_nil n)
    | cons c cs => exact ⟨c, cs, rfl⟩
  have hcd : c.isDigit = true := natChars_digits n c (by rw [hcons]; simp)
  have hcw : isWs c = false := digit_not_ws hcd
  have hdig : List.takeWhile (fun x => x.isDigit) (c :: (cs ++ r)) = c :: cs := by
    rw [show c :: (cs ++ r) = (c :: cs) ++ r from rfl]
    rw [takeWhile_append_all r (by rw [← hcons]; exact fun x hx => natChars_digits n x hx)]
    rw [hr, List.append_nil]
  unfold scanInt
  rw [hcons]
  simp only [List.cons_append, wsCount]
  simp only [takeWhile_head_false (h := hcw), dropWhile_head_false (h := hcw),
    List.headD_cons, List.drop_zero, List.length_nil]
  simp only [digit_ne_minus hcd, digit_ne_plus hcd, decide_False, Bool.or_self,
    if_false, List.drop_zero]
  norm_num
  rw [show digitRun (c :: (cs ++ r)) = c :: cs from hdig]
  rw [← hcons]
  norm_num
  refine ⟨natChars_ne_nil n, digitsVal_natChars n, ?_⟩
  rw [hcons]
  simp

theorem scanInt_ws_shift (s : List Char) :
    scanInt (' ' :: s) = (scanInt s).map (fun q => (q.1, q.2 + 1)) := by
  unfold scanInt
  have h1 : List.takeWhile isWs (' ' :: s) = ' ' :: List.takeWhile isWs s := by
    rw [List.takeWhile_cons]
    simp [show isWs ' ' = true from by decide]
  have h2 : List.dropWhile isWs (' ' :: s) = List.dropWhile isWs s := by
    rw [List.dropWhile_cons]
    simp [show isWs ' ' = true from by decide]
  simp only [wsCount, h1, h2, List.length_cons]
  cases hde : (digitRun ((List.dropWhile isWs s).drop
      (if (List.dropWhile isWs s).headD NUL = '-' || (List.dropWhile isWs s).headD NUL = '+'
        then 1 else 0))).isEmpty
  · simp only [Bool.false_eq_true, if_false, Option.map_some', Option.some.injEq,
      Prod.mk.injEq]
    exact ⟨trivial, by omega⟩
  · simp

theorem scanInt_space_natChars {r : List Char} (n : Nat)
    (hr : r.takeWhile (fun c => c.isDigit) = []) :
    scanInt (' ' :: (natChars n ++ r)) = some ((n : Int), (natChars n).length + 1) := by
  rw [scanInt_ws_shift, scanInt_natChars n hr]
  rfl

theorem toInt32_coe_small {n : Nat} (h : n < 2 ^ 31) : toInt32 (n : Int) = (n : Int) := by
  unfold toInt32
  have h1 : (n : Int) % (2 ^ 32 : Int) = (n : Int) := by
    apply Int.emod_eq_of_lt
    · exact Int.ofNat_nonneg n
    · have : (n : Int) < (2 ^ 31 : Int) := by exact_mod_cast h
      omega
  rw [h1]
  have h2 : (n : Int) < (2 ^ 31 : Int) := by exact_mod_cast h
  simp only [if_pos h2]

theorem toUInt32_coe_small {n : Nat} (h : n < 2 ^ 32) : toUInt32 (n : Int) = n := by
  unfold toUInt32
  have h1 : (n : Int) % (2 ^ 32 : Int) = (n : Int) := by
    apply Int.emod_eq_of_lt
    · exact Int.ofNat_nonneg n
    · exact_mod_cast h
  rw [h1]
  exact Int.toNat_ofNat n

theorem scanNumeric_canonical (m p maj mnr : Nat) (rc : Char) (R' : List Char)
    (hm : m < 2 ^ 31) (hp : p < 2 ^ 31) (hmaj : maj < 2 ^ 32) (hmnr : mnr < 2 ^ 32)
    (hrc : isWs rc = false) :
    scanNumeric (natChars m ++ (' ' :: natChars p) ++ (' ' :: natChars maj) ++
      (':' :: natChars mnr) ++ (' ' :: rc :: R')) =
      some (((m : Int), (p : Int), maj, mnr),
        (natChars m).length + (natChars p).length + (natChars maj).length +
          (natChars mnr).length + 4) := by
  have hsp : (' ' : Char).isDigit = false := by decide
  have hco : (':' : Char).isDigit = false := by decide
  set line := natChars m ++ (' ' :: natChars p) ++ (' ' :: natChars maj) ++
      (':' :: natChars mnr) ++ (' ' :: rc :: R') with hline
  have hs1 : scanInt line = some ((m : Int), (natChars m).length) := by
    rw [hline, show natChars m ++ (' ' :: natChars p) ++ (' ' :: natChars maj) ++
      (':' :: natChars mnr) ++ (' ' :: rc :: R') = natChars m ++ ((' ' :: natChars p) ++
      ((' ' :: natChars maj) ++ ((':' :: natChars mnr) ++ (' ' :: rc :: R'))))
      from by simp [List.append_assoc]]
    exact scanInt_natChars m (takeWhile_head_false _ hsp)
  have hd1 : line.drop (natChars m).length = ' ' :: (natChars p ++
      ((' ' :: natChars maj) ++ ((':' :: natChars mnr) ++ (' ' :: rc :: R')))) := by
    rw [hline, show natChars m ++ (' ' :: natChars p) ++ (' ' :: natChars maj) ++
      (':' :: natChars mnr) ++ (' ' :: rc :: R') = natChars m ++ (' ' :: (natChars p ++
      ((' ' :: natChars maj) ++ ((':' :: natChars mnr) ++ (' ' :: rc :: R')))))
      from by simp [List.append_assoc]]
    exact List.drop_left _ _
  have hs2 : scanInt (line.drop (natChars m).length) =
      some ((p : Int), (natChars p).length + 1) := by
    rw [hd1]
    exact scanInt_space_natChars p (takeWhile_head_false _ hsp)
  have hd2 : line.drop ((natChars m).length + ((natChars p).length + 1)) =
      ' ' :: (natChars maj ++ ((':' :: natChars mnr) ++ (' ' :: rc :: R'))) := by
    have h := drop_add_of_drop hd1 ((natChars p).length + 1)
    rw [show (' ' :: (natChars p ++ ((' ' :: natChars maj) ++ ((':' :: natChars mnr) ++
      (' ' :: rc :: R'))))).drop ((natChars p).length + 1) =
      (natChars p ++ ((' ' :: natChars maj) ++ ((':' :: natChars mnr) ++
      (' ' :: rc :: R')))).drop (natChars p).length from by simp] at h
    rw [List.drop_left] at h
    rw [h]
    simp [List.append_assoc]
  have hs3 : scanInt (line.drop ((natChars m).length + ((natChars p).length + 1))) =
      some ((maj : Int), (natChars maj).length + 1) := by
    rw [hd2]
    exact scanInt_space_natChars maj (takeWhile_head_false _ hco)
  have hd3 : line.drop ((natChars m).length + ((natChars p).length + 1) +
      ((natChars maj).length + 1)) = ':' :: (natChars mnr ++ (' ' :: rc :: R')) := by
    have h := drop_add_of_drop hd2 ((natChars maj).length + 1)
    rw [show (' ' :: (natChars maj ++ ((':' :: natChars mnr) ++
      (' ' :: rc :: R')))).drop ((natChars maj).length + 1) =
      (natChars maj ++ ((':' :: natChars mnr) ++ (' ' :: rc :: R'))).drop
      (natChars maj).length from by simp] at h
    rw [List.drop_left] at h
    rw [h]
    simp [List.append_assoc]
  have hcolon : lineGet line ((natChars m).length + ((natChars p).length + 1) +
      ((natChars maj).length + 1)) = ':' := by
    have h := lineGet_of_drop hd3 0
    simpa using h
  have hd4 : line.drop ((natChars m).length + ((natChars p).length + 1) +
      ((natChars maj).length + 1) + 1) = natChars mnr ++ (' ' :: rc :: R') := by
    have h := drop_add_of_drop hd3 1
    simpa using h
  have hs4 : scanInt (line.drop ((natChars m).length + ((natChars p).length + 1) +
      ((natChars maj).length + 1) + 1)) = some ((mnr : Int), (natChars mnr).length) := by
    rw [hd4]
    exact scanInt_natChars mnr (takeWhile_head_false _ hsp)
  have hd5 : line.drop ((natChars m).length + ((natChars p).length + 1) +
      ((natChars maj).length + 1) + 1 + (natChars mnr).length) = ' ' :: rc :: R' := by
    have h := drop_add_of_drop hd4 (natChars mnr).length
    rw [List.drop_left] at h
    exact h
  have hws : wsCount (line.drop ((natChars m).length + ((natChars p).length + 1) +
      ((natChars maj).length + 1) + 1 + (natChars mnr).length)) = 1 := by
    rw [hd5]
    rw [wsCount, List.takeWhile_cons]
    simp only [show isWs ' ' = true from by decide, if_true]
    rw [takeWhile_head_false _ hrc]
    rfl
  unfold scanNumeric
  rw [hs1]
  dsimp only
  rw [hs2]
  dsimp only
  rw [hs3]
  dsimp only
  rw [if_pos hcolon]
  rw [hs4]
  dsimp only
  rw [hws]
  rw [toInt32_coe_small hm, toInt32_coe_small hp, toUInt32_coe_small hmaj,
    toUInt32_coe_small hmnr]
  refine congrArg some ?_
  refine congrArg _ ?_
  omega

theorem optLoop_canonical_start (ts : List (List Char)) {line : List Char} (P : List Char)
    (q : Nat) {rest : List Char}
    (hts : ∀ t ∈ ts, isTok t = true ∧ t ≠ ['-'])
    (hdrop : line.drop (P.length + 1) = renderOpts ts ++ '-' :: ' ' :: rest)
    (hq : P.length + 1 + q = line.length + 1) :
    optLoop line ⟨P ++ NUL :: List.replicate q NUL, P.length + 1⟩ 0 =
      some ⟨P ++ NUL :: (optRegion ts ++ List.replicate (q - (optRegion ts).length) NUL),
            P.length + 1 + (optRegion ts).length⟩ := by
  cases ts with
  | nil =>
    rw [optLoop_canonical [] P q 0 (by simp) hdrop hq (Or.inr rfl)]
    refine congrArg some ?_
    rw [show (optTail []).length = 3 from rfl, show (optRegion []).length = 2 from rfl]
    rw [show P ++ optTail [] ++ List.replicate (q + 1 - 3) NUL =
      P ++ NUL :: (optRegion [] ++ List.replicate (q + 1 - 3) NUL) from by
        simp [optTail, optRegion]]
    rw [show q + 1 - 3 = q - 2 from by omega, show P.length + 3 = P.length + 1 + 2 from by
      omega]
  | cons t ts' =>
    have ht := hts t (by simp)
    have hlen := congrArg List.length hdrop
    simp only [List.length_drop, renderOpts, List.length_append, List.length_cons] at hlen
    have hdrop' : line.drop (P.length + 1) =
        t ++ ' ' :: (renderOpts ts' ++ '-' :: ' ' :: rest) := by
      rw [hdrop]; simp [renderOpts]
    have hstep := @pnsf_field_step line (P.length + 1) t
      (renderOpts ts' ++ '-' :: ' ' :: rest)
      (P ++ NUL :: List.replicate q NUL) hdrop' ht.1
    have hlen' := congrArg List.length hdrop'
    simp only [List.length_drop, List.length_append, List.length_cons] at hlen'
    have hqbig : t.length + 1 ≤ q := by omega
    have hwr : writeStr (P ++ NUL :: List.replicate q NUL) (P.length + 1) t =
        P ++ NUL :: (t ++ NUL :: List.replicate (q - (t.length + 1)) NUL) := by
      have hw := writeStr_append t (P ++ [NUL]) (List.replicate q NUL)
        (by simp; omega)
      simp only [List.append_assoc, List.singleton_append, List.cons_append,
        List.length_append, List.length_cons, List.length_nil, List.drop_replicate,
        List.nil_append] at hw
      exact hw
    have hbs : bufString (P ++ NUL :: (t ++ NUL :: List.replicate (q - (t.length + 1)) NUL))
        (P.length + 1) = t := by
      have hb := bufString_at (P ++ [NUL]) t (List.replicate (q - (t.length + 1)) NUL)
        (fun c hc => (isTok_mem ht.1 c hc).2)
      simp only [List.append_assoc, List.singleton_append, List.cons_append,
        List.length_append, List.length_cons, List.length_nil, List.nil_append] at hb
      exact hb
    rw [hwr] at hstep
    have hnd : ¬ bufString (P ++ NUL :: (t ++ NUL ::
        List.replicate (q - (t.length + 1)) NUL)) (P.length + 1) = ['-'] := by
      rw [hbs]; exact ht.2
    rw [optLoop_go hstep hnd, if_neg (by omega)]
    have hdrop2 : line.drop ((P ++ NUL :: t).length + 1) =
        renderOpts ts' ++ '-' :: ' ' :: rest := by
      have h3 := drop_add_of_drop hdrop' (t.length + 1)
      have h4 : (t ++ ' ' :: (renderOpts ts' ++ '-' :: ' ' :: rest)).drop (t.length + 1) =
          renderOpts ts' ++ '-' :: ' ' :: rest := by
        rw [show t ++ ' ' :: (renderOpts ts' ++ '-' :: ' ' :: rest) =
          (t ++ [' ']) ++ (renderOpts ts' ++ '-' :: ' ' :: rest) from by simp]
        rw [show t.length + 1 = (t ++ [' ']).length from by simp]
        exact List.drop_left _ _
      rw [h4] at h3
      rw [show (P ++ NUL :: t).length + 1 = P.length + 1 + (t.length + 1) from by
        simp only [List.length_append, List.length_cons]; omega]
      exact h3
    have hq' : (P ++ NUL :: t).length + 1 + (q - (t.length + 1)) = line.length + 1 := by
      simp only [List.length_append, List.length_cons]
      omega
    have hIH := optLoop_canonical ts' (P ++ NUL :: t) (q - (t.length + 1)) 1
      (fun u hu => hts u (by simp [hu])) hdrop2 hq' (Or.inl (by omega))
    simp only [List.append_assoc, List.cons_append, List.length_append,
      List.length_cons, List.nil_append] at hIH
    rw [show P.length + 1 + t.length + 1 = P.length + (t.length + 1) + 1 from by omega]
    rw [hIH]
    refine congrArg some ?_
    have hcnt : q - (t.length + 1) + 1 - (optTail ts').length =
        q - (optRegion (t :: ts')).length := by
      have hO := length_optTail ts'
      simp only [optRegion, List.length_append]
      omega
    rw [hcnt]
    rw [show P ++ NUL :: (t ++ (optTail ts' ++
        List.replicate (q - (optRegion (t :: ts')).length) NUL)) =
      P ++ NUL :: (optRegion (t :: ts') ++
        List.replicate (q - (optRegion (t :: ts')).length) NUL) from by
        simp [optRegion, List.append_assoc]]
    rw [show P.length + (t.length + 1) + (optTail ts').length =
      P.length + 1 + (optRegion (t :: ts')).length from by
        simp only [optRegion, List.length_append]; omega]

theorem length_optRegion (ts : List (List Char)) :
    (optRegion ts).length = (renderOpts ts).length + 2 := by
  cases ts with
  | nil => rfl
  | cons t ts' =>
    simp only [optRegion, renderOpts, List.length_append, List.length_cons,
      length_optTail ts']
    omega

theorem drop_tok_space (X Y : List Char) : (X ++ ' ' :: Y).drop (X.length + 1) = Y := by
  rw [show X ++ ' ' :: Y = (X ++ [' ']) ++ Y from by simp]
  rw [show X.length + 1 = (X ++ [' ']).length from by simp]
  exact List.drop_left _ _

theorem drop_opt_dash (X Y : List Char) :
    (X ++ '-' :: ' ' :: Y).drop (X.length + 2) = Y := by
  rw [show X ++ '-' :: ' ' :: Y = (X ++ ['-', ' ']) ++ Y from by simp]
  rw [show X.length + 2 = (X ++ ['-', ' ']).length from by simp]
  exact List.drop_left _ _

theorem pnsf_step_replicate {line : List Char} {f rest : List Char} (P : List Char)
    (o q : Nat) (ho : o = P.length)
    (hdrop : line.drop o = f ++ ' ' :: rest) (hf : isTok f = true)
    (hq : f.length + 1 ≤ q) :
    parse_next_string_field line ⟨P ++ List.replicate q NUL, o⟩ =
      some (o, ⟨P ++ f ++ NUL :: List.replicate (q - (f.length + 1)) NUL,
        o + f.length + 1⟩) := by
  subst ho
  have hstep := @pnsf_field_step line P.length f rest (P ++ List.replicate q NUL) hdrop hf
  have hw := writeStr_append f P (List.replicate q NUL) (by simp; omega)
  rw [hw, List.drop_replicate] at hstep
  exact hstep

theorem pnsf_end_replicate {line : List Char} {f : List Char} (P : List Char)
    (o q : Nat) (ho : o = P.length)
    (hdrop : line.drop o = f) (hf : isTok f = true) (hne : f ≠ [])
    (hq : f.length + 1 ≤ q) :
    parse_next_string_field line ⟨P ++ List.replicate q NUL, o⟩ =
      some (o, ⟨P ++ f ++ NUL :: List.replicate (q - (f.length + 1)) NUL,
        o + f.length⟩) := by
  subst ho
  have hstep := @pnsf_field_last line P.length f (P ++ List.replicate q NUL) hdrop hf hne
  have hw := writeStr_append f P (List.replicate q NUL) (by simp; omega)
  rw [hw, List.drop_replicate] at hstep
  exact hstep

theorem bufString_optRegion (A : List Char) (ts : List (List Char)) (X : List Char)
    (hts : ∀ t ∈ ts, ∀ c ∈ t, (c != NUL) = true) :
    bufString (A ++ (optRegion ts ++ X)) A.length = joinSp ts := by
  unfold bufString
  rw [List.drop_left]
  cases ts with
  | nil =>
    simp only [optRegion, List.cons_append]
    rw [takeWhile_head_false _ (by decide)]
    rfl
  | cons t ts' =>
    simp only [optRegion, List.append_assoc]
    exact takeWhile_optRegion ts' t X (hts t (by simp)) (fun u hu => hts u (by simp [hu]))

/-- Running `sc_parse_mountinfo_entry` over a line in the canonical grammar of spec
section 6 (an arbitrary numeric region accepted by `scanNumeric`, then the seven
field regions separated by single spaces, the optional tokens each followed by one
space before the `-` separator): the parse succeeds and every field is recovered
verbatim, the optional fields joined by single spaces. -/
theorem parse_canonical_line (L : List Char) (ids : Int × Int × Nat × Nat) (o0 : Nat)
    (root dir opts : List Char) (optFs : List (List Char)) (fs src sup : List Char)
    (hnum : scanNumeric L = some (ids, o0))
    (hdrop0 : L.drop o0 = root ++ ' ' :: (dir ++ ' ' :: (opts ++ ' ' ::
      (renderOpts optFs ++ '-' :: ' ' :: (fs ++ ' ' :: (src ++ ' ' :: sup))))))
    (hroot : isTok root = true)
    (hdir : isTok dir = true) (hopts : isTok opts = true)
    (hoptFs : ∀ t ∈ optFs, isTok t = true ∧ t ≠ ['-'])
    (hfs : isTok fs = true) (hsrc : isTok src = true)
    (hsup : isTok sup = true) (hsne : sup ≠ []) :
    sc_parse_mountinfo_entry L =
      some { mount_id := ids.1, parent_id := ids.2.1, dev_major := ids.2.2.1,
             dev_minor := ids.2.2.2, root := root, mount_dir := dir, mount_opts := opts,
             optional_fields := joinSp optFs, fs_type := fs, mount_source := src,
             super_opts := sup } := by
  have hd1 : L.drop (o0 + (root.length + 1)) = dir ++ ' ' :: (opts ++ ' ' ::
      (renderOpts optFs ++ '-' :: ' ' :: (fs ++ ' ' :: (src ++ ' ' :: sup)))) := by
    have h := drop_add_of_drop hdrop0 (root.length + 1)
    rw [drop_tok_space] at h
    exact h
  have hd2 : L.drop (o0 + (root.length + 1) + (dir.length + 1)) = opts ++ ' ' ::
      (renderOpts optFs ++ '-' :: ' ' :: (fs ++ ' ' :: (src ++ ' ' :: sup))) := by
    have h := drop_add_of_drop hd1 (dir.length + 1)
    rw [drop_tok_space] at h
    exact h
  have hd3 : L.drop (o0 + (root.length + 1) + (dir.length + 1) + (opts.length + 1)) =
      renderOpts optFs ++ '-' :: ' ' :: (fs ++ ' ' :: (src ++ ' ' :: sup)) := by
    have h := drop_add_of_drop hd2 (opts.length + 1)
    rw [drop_tok_space] at h
    exact h
  have hd4 : L.drop (o0 + (root.length + 1) + (dir.length + 1) + (opts.length + 1) +
      ((renderOpts optFs).length + 2)) = fs ++ ' ' :: (src ++ ' ' :: sup) := by
    have h := drop_add_of_drop hd3 ((renderOpts optFs).length + 2)
    rw [drop_opt_dash] at h
    exact h
  have hd5 : L.drop (o0 + (root.length + 1) + (dir.length + 1) + (opts.length + 1) +
      ((renderOpts optFs).length + 2) + (fs.length + 1)) = src ++ ' ' :: sup := by
    have h := drop_add_of_drop hd4 (fs.length + 1)
    rw [drop_tok_space] at h
    exact h
  have hd6 : L.drop (o0 + (root.length + 1) + (dir.length + 1) + (opts.length + 1) +
      ((renderOpts optFs).length + 2) + (fs.length + 1) + (src.length + 1)) = sup := by
    have h := drop_add_of_drop hd5 (src.length + 1)
    rw [drop_tok_space] at h
    exact h
  have hne6 : L.drop (o0 + (root.length + 1) + (dir.length + 1) + (opts.length + 1) +
      ((renderOpts optFs).length + 2) + (fs.length + 1) + (src.length + 1)) ≠ [] := by
    rw [hd6]; exact hsne
  have hlt6 := List.length_lt_of_drop_ne_nil hne6
  have hlen6 := congrArg List.length hd6
  simp only [List.length_drop] at hlen6
  have hOR := length_optRegion optFs
  have hlead : parseLeading L = some (ids, o0,
      o0 + root.length + 1, o0 + root.length + 1 + dir.length + 1,
      ⟨((List.replicate o0 NUL ++ root ++ [NUL]) ++ dir ++ [NUL]) ++ opts ++
        NUL :: List.replicate (L.length + 1 - o0 - (root.length + 1) - (dir.length + 1) -
          (opts.length + 1)) NUL,
        o0 + root.length + 1 + dir.length + 1 + opts.length + 1⟩) := by
    unfold parseLeading
    rw [hnum]
    dsimp only
    rw [show List.replicate (L.length + 1) NUL = List.replicate o0 NUL ++
      List.replicate (L.length + 1 - o0) NUL from by
        rw [← List.replicate_add]; congr 1; omega]
    rw [pnsf_step_replicate (List.replicate o0 NUL) o0 (L.length + 1 - o0)
      (by simp) hdrop0 hroot (by omega)]
    dsimp only
    rw [show List.replicate o0 NUL ++ root ++ NUL :: List.replicate
      (L.length + 1 - o0 - (root.length + 1)) NUL =
      (List.replicate o0 NUL ++ root ++ [NUL]) ++ List.replicate
      (L.length + 1 - o0 - (root.length + 1)) NUL from by simp]
    rw [pnsf_step_replicate (List.replicate o0 NUL ++ root ++ [NUL])
      (o0 + root.length + 1) (L.length + 1 - o0 - (root.length + 1))
      (by simp only [List.length_append, List.length_replicate, List.length_cons,
        List.length_nil]; try omega)
      (by rw [show o0 + root.length + 1 = o0 + (root.length + 1) from by omega]
          exact hd1)
      hdir (by omega)]
    dsimp only
    rw [show (List.replicate o0 NUL ++ root ++ [NUL]) ++ dir ++ NUL :: List.replicate
      (L.length + 1 - o0 - (root.length + 1) - (dir.length + 1)) NUL =
      ((List.replicate o0 NUL ++ root ++ [NUL]) ++ dir ++ [NUL]) ++ List.replicate
      (L.length + 1 - o0 - (root.length + 1) - (dir.length + 1)) NUL from by simp]
    rw [pnsf_step_replicate ((List.replicate o0 NUL ++ root ++ [NUL]) ++ dir ++ [NUL])
      (o0 + root.length + 1 + dir.length + 1)
      (L.length + 1 - o0 - (root.length + 1) - (dir.length + 1))
      (by simp only [List.length_append, List.length_replicate, List.length_cons,
        List.length_nil]; try omega)
      (by rw [show o0 + root.length + 1 + dir.length + 1 =
          o0 + (root.length + 1) + (dir.length + 1) from by omega]
          exact hd2)
      hopts (by omega)]
  unfold sc_parse_mountinfo_entry
  rw [hlead]
  dsimp only
  rw [show ((List.replicate o0 NUL ++ root ++ [NUL]) ++ dir ++ [NUL]) ++ opts ++
      NUL :: List.replicate (L.length + 1 - o0 - (root.length + 1) - (dir.length + 1) -
        (opts.length + 1)) NUL =
    (((List.replicate o0 NUL ++ root ++ [NUL]) ++ dir ++ [NUL]) ++ opts) ++
      NUL :: List.replicate (L.length + 1 - o0 - (root.length + 1) - (dir.length + 1) -
        (opts.length + 1)) NUL from by simp]
  rw [show o0 + root.length + 1 + dir.length + 1 + opts.length + 1 =
    ((((List.replicate o0 NUL ++ root ++ [NUL]) ++ dir ++ [NUL]) ++ opts)).length + 1
    from by
      simp only [List.length_append, List.length_replicate, List.length_cons,
        List.length_nil]
      try omega]
  rw [optLoop_canonical_start optFs
    (((List.replicate o0 NUL ++ root ++ [NUL]) ++ dir ++ [NUL]) ++ opts)
    (L.length + 1 - o0 - (root.length + 1) - (dir.length + 1) - (opts.length + 1))
    hoptFs
    (by rw [show (((List.replicate o0 NUL ++ root ++ [NUL]) ++ dir ++ [NUL]) ++ opts).length + 1 =
        o0 + (root.length + 1) + (dir.length + 1) + (opts.length + 1)
        from by
          simp only [List.length_append, List.length_replicate, List.length_cons,
        List.length_nil]
          try omega]
        exact hd3)
    (by simp only [List.length_append, List.length_replicate, List.length_cons,
        List.length_nil]
        try omega)]
  dsimp only
  rw [show (((List.replicate o0 NUL ++ root ++ [NUL]) ++ dir ++ [NUL]) ++ opts) ++
      NUL :: (optRegion optFs ++ List.replicate (L.length + 1 - o0 - (root.length + 1) - (dir.length + 1) - (opts.length + 1) - (optRegion optFs).length) NUL) =
    ((((List.replicate o0 NUL ++ root ++ [NUL]) ++ dir ++ [NUL]) ++ opts) ++ NUL :: optRegion optFs) ++ List.replicate (L.length + 1 - o0 - (root.length + 1) - (dir.length + 1) - (opts.length + 1) - (optRegion optFs).length) NUL from by simp]
  rw [pnsf_step_replicate ((((List.replicate o0 NUL ++ root ++ [NUL]) ++ dir ++ [NUL]) ++ opts) ++ NUL :: optRegion optFs)
    ((((List.replicate o0 NUL ++ root ++ [NUL]) ++ dir ++ [NUL]) ++ opts).length + 1 + (optRegion optFs).length)
    (L.length + 1 - o0 - (root.length + 1) - (dir.length + 1) - (opts.length + 1) - (optRegion optFs).length)
    (by simp only [List.length_append, List.length_replicate, List.length_cons,
        List.length_nil]
        try omega)
    (by rw [show (((List.replicate o0 NUL ++ root ++ [NUL]) ++ dir ++ [NUL]) ++ opts).length + 1 + (optRegion optFs).length =
        o0 + (root.length + 1) + (dir.length + 1) + (opts.length + 1) +
          ((renderOpts optFs).length + 2) from by
          simp only [List.length_append, List.length_replicate, List.length_cons,
        List.length_nil]
          omega]
        exact hd4)
    hfs (by omega)]
  dsimp only
  rw [show ((((List.replicate o0 NUL ++ root ++ [NUL]) ++ dir ++ [NUL]) ++ opts) ++ NUL :: optRegion optFs) ++ fs ++
      NUL :: List.replicate ((L.length + 1 - o0 - (root.length + 1) - (dir.length + 1) - (opts.length + 1) - (optRegion optFs).length) - (fs.length + 1)) NUL =
    (((((List.replicate o0 NUL ++ root ++ [NUL]) ++ dir ++ [NUL]) ++ opts) ++ NUL :: optRegion optFs) ++ fs ++ [NUL]) ++ List.replicate ((L.length + 1 - o0 - (root.length + 1) - (dir.length + 1) - (opts.length + 1) - (optRegion optFs).length) - (fs.length + 1)) NUL from by simp]
  rw [pnsf_step_replicate (((((List.replicate o0 NUL ++ root ++ [NUL]) ++ dir ++ [NUL]) ++ opts) ++ NUL :: optRegion optFs) ++ fs ++ [NUL])
    ((((List.replicate o0 NUL ++ root ++ [NUL]) ++ dir ++ [NUL]) ++ opts).length + 1 + (optRegion optFs).length + fs.length + 1)
    ((L.length + 1 - o0 - (root.length + 1) - (dir.length + 1) - (opts.length + 1) - (optRegion optFs).length) - (fs.length + 1))
    (by simp only [List.length_append, List.length_replicate, List.length_cons,
        List.length_nil]
        try omega)
    (by rw [show (((List.replicate o0 NUL ++ root ++ [NUL]) ++ dir ++ [NUL]) ++ opts).length + 1 + (optRegion optFs).length + fs.length + 1 =
        o0 + (root.length + 1) + (dir.length + 1) + (opts.length + 1) +
          ((renderOpts optFs).length + 2) + (fs.length + 1) from by
          simp only [List.length_append, List.length_replicate, List.length_cons,
        List.length_nil]
          omega]
        exact hd5)
    hsrc (by omega)]
  dsimp only
  rw [show (((((List.replicate o0 NUL ++ root ++ [NUL]) ++ dir ++ [NUL]) ++ opts) ++ NUL :: optRegion optFs) ++ fs ++ [NUL]) ++ src ++
      NUL :: List.replicate (((L.length + 1 - o0 - (root.length + 1) - (dir.length + 1) - (opts.length + 1) - (optRegion optFs).length) - (fs.length + 1)) - (src.length + 1)) NUL =
    ((((((List.replicate o0 NUL ++ root ++ [NUL]) ++ dir ++ [NUL]) ++ opts) ++ NUL :: optRegion optFs) ++ fs ++ [NUL]) ++ src ++ [NUL]) ++ List.replicate (((L.length + 1 - o0 - (root.length + 1) - (dir.length + 1) - (opts.length + 1) - (optRegion optFs).length) - (fs.length + 1)) - (src.length + 1)) NUL from by simp]
  rw [pnsf_end_replicate ((((((List.replicate o0 NUL ++ root ++ [NUL]) ++ dir ++ [NUL]) ++ opts) ++ NUL :: optRegion optFs) ++ fs ++ [NUL]) ++ src ++ [NUL])
    ((((List.replicate o0 NUL ++ root ++ [NUL]) ++ dir ++ [NUL]) ++ opts).length + 1 + (optRegion optFs).length + fs.length + 1 + src.length + 1)
    (((L.length + 1 - o0 - (root.length + 1) - (dir.length + 1) - (opts.length + 1) - (optRegion optFs).length) - (fs.length + 1)) - (src.length + 1))
    (by simp only [List.length_append, List.length_replicate, List.length_cons,
        List.length_nil]
        try omega)
    (by rw [show (((List.replicate o0 NUL ++ root ++ [NUL]) ++ dir ++ [NUL]) ++ opts).length + 1 + (optRegion optFs).length + fs.length + 1 + src.length + 1 =
        o0 + (root.length + 1) + (dir.length + 1) + (opts.length + 1) +
          ((renderOpts optFs).length + 2) + (fs.length + 1) + (src.length + 1) from by
          simp only [List.length_append, List.length_replicate, List.length_cons,
        List.length_nil]
          omega]
        exact hd6)
    hsup hsne (by omega)]
  dsimp only
  refine congrArg some ?_
  have e1 : bufString (((((((List.replicate o0 NUL ++ root ++ [NUL]) ++ dir ++ [NUL]) ++ opts) ++ NUL :: optRegion optFs) ++ fs ++ [NUL]) ++ src ++ [NUL]) ++ sup ++ NUL :: List.replicate ((((L.length + 1 - o0 - (root.length + 1) - (dir.length + 1) - (opts.length + 1) - (optRegion optFs).length) - (fs.length + 1)) - (src.length + 1)) - (sup.length + 1)) NUL) (o0) = root := by
    have h := bufString_at (List.replicate o0 NUL) root (dir ++ NUL :: (opts ++ NUL :: (optRegion optFs ++ (fs ++ NUL :: (src ++ NUL :: (sup ++ NUL :: List.replicate ((((L.length + 1 - o0 - (root.length + 1) - (dir.length + 1) - (opts.length + 1) - (optRegion optFs).length) - (fs.length + 1)) - (src.length + 1)) - (sup.length + 1)) NUL)))))) (fun c hc => (isTok_mem hroot c hc).2)
    rw [show (List.replicate o0 NUL : List Char).length = o0 from by
      simp only [List.length_append, List.length_replicate, List.length_cons,
        List.length_nil]
      try omega] at h
    rw [show (((((((List.replicate o0 NUL ++ root ++ [NUL]) ++ dir ++ [NUL]) ++ opts) ++ NUL :: optRegion optFs) ++ fs ++ [NUL]) ++ src ++ [NUL]) ++ sup ++ NUL :: List.replicate ((((L.length + 1 - o0 - (root.length + 1) - (dir.length + 1) - (opts.length + 1) - (optRegion optFs).length) - (fs.length + 1)) - (src.length + 1)) - (sup.length + 1)) NUL) = (List.replicate o0 NUL) ++ (root ++ NUL :: (dir ++ NUL :: (opts ++ NUL :: (optRegion optFs ++ (fs ++ NUL :: (src ++ NUL :: (sup ++ NUL :: List.replicate ((((L.length + 1 - o0 - (root.length + 1) - (dir.length + 1) - (opts.length + 1) - (optRegion optFs).length) - (fs.length + 1)) - (src.length + 1)) - (sup.length + 1)) NUL))))))) from by
      simp [List.append_assoc]]
    exact h
  have e2 : bufString (((((((List.replicate o0 NUL ++ root ++ [NUL]) ++ dir ++ [NUL]) ++ opts) ++ NUL :: optRegion optFs) ++ fs ++ [NUL]) ++ src ++ [NUL]) ++ sup ++ NUL :: List.replicate ((((L.length + 1 - o0 - (root.length + 1) - (dir.length + 1) - (opts.length + 1) - (optRegion optFs).length) - (fs.length + 1)) - (src.length + 1)) - (sup.length + 1)) NUL) (o0 + root.length + 1) = dir := by
    have h := bufString_at (List.replicate o0 NUL ++ root ++ [NUL]) dir (opts ++ NUL :: (optRegion optFs ++ (fs ++ NUL :: (src ++ NUL :: (sup ++ NUL :: List.replicate ((((L.length + 1 - o0 - (root.length + 1) - (dir.length + 1) - (opts.length + 1) - (optRegion optFs).length) - (fs.length + 1)) - (src.length + 1)) - (sup.length + 1)) NUL))))) (fun c hc => (isTok_mem hdir c hc).2)
    rw [show (List.replicate o0 NUL ++ root ++ [NUL] : List Char).length = o0 + root.length + 1 from by
      simp only [List.length_append, List.length_replicate, List.length_cons,
        List.length_nil]
      try omega] at h
    rw [show (((((((List.replicate o0 NUL ++ root ++ [NUL]) ++ dir ++ [NUL]) ++ opts) ++ NUL :: optRegion optFs) ++ fs ++ [NUL]) ++ src ++ [NUL]) ++ sup ++ NUL :: List.replicate ((((L.length + 1 - o0 - (root.length + 1) - (dir.length + 1) - (opts.length + 1) - (optRegion optFs).length) - (fs.length + 1)) - (src.length + 1)) - (sup.length + 1)) NUL) = (List.replicate o0 NUL ++ root ++ [NUL]) ++ (dir ++ NUL :: (opts ++ NUL :: (optRegion optFs ++ (fs ++ NUL :: (src ++ NUL :: (sup ++ NUL :: List.replicate ((((L.length + 1 - o0 - (root.length + 1) - (dir.length + 1) - (opts.length + 1) - (optRegion optFs).length) - (fs.length + 1)) - (src.length + 1)) - (sup.length + 1)) NUL)))))) from by
      simp [List.append_assoc]]
    exact h
  have e3 : bufString (((((((List.replicate o0 NUL ++ root ++ [NUL]) ++ dir ++ [NUL]) ++ opts) ++ NUL :: optRegion optFs) ++ fs ++ [NUL]) ++ src ++ [NUL]) ++ sup ++ NUL :: List.replicate ((((L.length + 1 - o0 - (root.length + 1) - (dir.length + 1) - (opts.length + 1) - (optRegion optFs).length) - (fs.length + 1)) - (src.length + 1)) - (sup.length + 1)) NUL) (o0 + root.length + 1 + dir.length + 1) = opts := by
    have h := bufString_at ((List.replicate o0 NUL ++ root ++ [NUL]) ++ dir ++ [NUL]) opts (optRegion optFs ++ (fs ++ NUL :: (src ++ NUL :: (sup ++ NUL :: List.replicate ((((L.length + 1 - o0 - (root.length + 1) - (dir.length + 1) - (opts.length + 1) - (optRegion optFs).length) - (fs.length + 1)) - (src.length + 1)) - (sup.length + 1)) NUL)))) (fun c hc => (isTok_mem hopts c hc).2)
    rw [show ((List.replicate o0 NUL ++ root ++ [NUL]) ++ dir ++ [NUL] : List Char).length = o0 + root.length + 1 + dir.length + 1 from by
      simp only [List.length_append, List.length_replicate, List.length_cons,
        List.length_nil]
      try omega] at h
    rw [show (((((((List.replicate o0 NUL ++ root ++ [NUL]) ++ dir ++ [NUL]) ++ opts) ++ NUL :: optRegion optFs) ++ fs ++ [NUL]) ++ src ++ [NUL]) ++ sup ++ NUL :: List.replicate ((((L.length + 1 - o0 - (root.length + 1) - (dir.length + 1) - (opts.length + 1) - (optRegion optFs).length) - (fs.length + 1)) - (src.length + 1)) - (sup.length + 1)) NUL) = ((List.replicate o0 NUL ++ root ++ [NUL]) ++ dir ++ [NUL]) ++ (opts ++ NUL :: (optRegion optFs ++ (fs ++ NUL :: (src ++ NUL :: (sup ++ NUL :: List.replicate ((((L.length + 1 - o0 - (root.length + 1) - (dir.length + 1) - (opts.length + 1) - (optRegion optFs).length) - (fs.length + 1)) - (src.length + 1)) - (sup.length + 1)) NUL))))) from by
      simp [List.append_assoc]]
    exact h
  have e4 : bufString (((((((List.replicate o0 NUL ++ root ++ [NUL]) ++ dir ++ [NUL]) ++ opts) ++ NUL :: optRegion optFs) ++ fs ++ [NUL]) ++ src ++ [NUL]) ++ sup ++ NUL :: List.replicate ((((L.length + 1 - o0 - (root.length + 1) - (dir.length + 1) - (opts.length + 1) - (optRegion optFs).length) - (fs.length + 1)) - (src.length + 1)) - (sup.length + 1)) NUL) ((((List.replicate o0 NUL ++ root ++ [NUL]) ++ dir ++ [NUL]) ++ opts).length + 1) = joinSp optFs := by
    have h := bufString_optRegion ((((List.replicate o0 NUL ++ root ++ [NUL]) ++ dir ++ [NUL]) ++ opts) ++ [NUL]) optFs (fs ++ NUL :: (src ++ NUL :: (sup ++ NUL :: List.replicate ((((L.length + 1 - o0 - (root.length + 1) - (dir.length + 1) - (opts.length + 1) - (optRegion optFs).length) - (fs.length + 1)) - (src.length + 1)) - (sup.length + 1)) NUL)))
      (fun t ht c hc => (isTok_mem (hoptFs t ht).1 c hc).2)
    rw [show ((((List.replicate o0 NUL ++ root ++ [NUL]) ++ dir ++ [NUL]) ++ opts) ++ [NUL] : List Char).length = (((List.replicate o0 NUL ++ root ++ [NUL]) ++ dir ++ [NUL]) ++ opts).length + 1 from by
      simp only [List.length_append, List.length_replicate, List.length_cons,
        List.length_nil]
      try omega] at h
    rw [show (((((((List.replicate o0 NUL ++ root ++ [NUL]) ++ dir ++ [NUL]) ++ opts) ++ NUL :: optRegion optFs) ++ fs ++ [NUL]) ++ src ++ [NUL]) ++ sup ++ NUL :: List.replicate ((((L.length + 1 - o0 - (root.length + 1) - (dir.length + 1) - (opts.length + 1) - (optRegion optFs).length) - (fs.length + 1)) - (src.length + 1)) - (sup.length + 1)) NUL) = ((((List.replicate o0 NUL ++ root ++ [NUL]) ++ dir ++ [NUL]) ++ opts) ++ [NUL]) ++ (optRegion optFs ++ (fs ++ NUL :: (src ++ NUL :: (sup ++ NUL :: List.replicate ((((L.length + 1 - o0 - (root.length + 1) - (dir.length + 1) - (opts.length + 1) - (optRegion optFs).length) - (fs.length + 1)) - (src.length + 1)) - (sup.length + 1)) NUL)))) from by
      simp [List.append_assoc]]
    exact h
  have e5 : bufString (((((((List.replicate o0 NUL ++ root ++ [NUL]) ++ dir ++ [NUL]) ++ opts) ++ NUL :: optRegion optFs) ++ fs ++ [NUL]) ++ src ++ [NUL]) ++ sup ++ NUL :: List.replicate ((((L.length + 1 - o0 - (root.length + 1) - (dir.length + 1) - (opts.length + 1) - (optRegion optFs).length) - (fs.length + 1)) - (src.length + 1)) - (sup.length + 1)) NUL) ((((List.replicate o0 NUL ++ root ++ [NUL]) ++ dir ++ [NUL]) ++ opts).length + 1 + (optRegion optFs).length) = fs := by
    have h := bufString_at ((((List.replicate o0 NUL ++ root ++ [NUL]) ++ dir ++ [NUL]) ++ opts) ++ NUL :: optRegion optFs) fs (src ++ NUL :: (sup ++ NUL :: List.replicate ((((L.length + 1 - o0 - (root.length + 1) - (dir.length + 1) - (opts.length + 1) - (optRegion optFs).length) - (fs.length + 1)) - (src.length + 1)) - (sup.length + 1)) NUL)) (fun c hc => (isTok_mem hfs c hc).2)
    rw [show ((((List.replicate o0 NUL ++ root ++ [NUL]) ++ dir ++ [NUL]) ++ opts) ++ NUL :: optRegion optFs : List Char).length = (((List.replicate o0 NUL ++ root ++ [NUL]) ++ dir ++ [NUL]) ++ opts).length + 1 + (optRegion optFs).length from by
      simp only [List.length_append, List.length_replicate, List.length_cons,
        List.length_nil]
      try omega] at h
    rw [show (((((((List.replicate o0 NUL ++ root ++ [NUL]) ++ dir ++ [NUL]) ++ opts) ++ NUL :: optRegion optFs) ++ fs ++ [NUL]) ++ src ++ [NUL]) ++ sup ++ NUL :: List.replicate ((((L.length + 1 - o0 - (root.length + 1) - (dir.length + 1) - (opts.length + 1) - (optRegion optFs).length) - (fs.length + 1)) - (src.length + 1)) - (sup.length + 1)) NUL) = ((((List.replicate o0 NUL ++ root ++ [NUL]) ++ dir ++ [NUL]) ++ opts) ++ NUL :: optRegion optFs) ++ (fs ++ NUL :: (src ++ NUL :: (sup ++ NUL :: List.replicate ((((L.length + 1 - o0 - (root.length + 1) - (dir.length + 1) - (opts.length + 1) - (optRegion optFs).length) - (fs.length + 1)) - (src.length + 1)) - (sup.length + 1)) NUL))) from by
      simp [List.append_assoc]]
    exact h
  have e6 : bufString (((((((List.replicate o0 NUL ++ root ++ [NUL]) ++ dir ++ [NUL]) ++ opts) ++ NUL :: optRegion optFs) ++ fs ++ [NUL]) ++ src ++ [NUL]) ++ sup ++ NUL :: List.replicate ((((L.length + 1 - o0 - (root.length + 1) - (dir.length + 1) - (opts.length + 1) - (optRegion optFs).length) - (fs.length + 1)) - (src.length + 1)) - (sup.length + 1)) NUL) ((((List.replicate o0 NUL ++ root ++ [NUL]) ++ dir ++ [NUL]) ++ opts).length + 1 + (optRegion optFs).length + fs.length + 1) = src := by
    have h := bufString_at (((((List.replicate o0 NUL ++ root ++ [NUL]) ++ dir ++ [NUL]) ++ opts) ++ NUL :: optRegion optFs) ++ fs ++ [NUL]) src (sup ++ NUL :: List.replicate ((((L.length + 1 - o0 - (root.length + 1) - (dir.length + 1) - (opts.length + 1) - (optRegion optFs).length) - (fs.length + 1)) - (src.length + 1)) - (sup.length + 1)) NUL) (fun c hc => (isTok_mem hsrc c hc).2)
    rw [show (((((List.replicate o0 NUL ++ root ++ [NUL]) ++ dir ++ [NUL]) ++ opts) ++ NUL :: optRegion optFs) ++ fs ++ [NUL] : List Char).length = (((List.replicate o0 NUL ++ root ++ [NUL]) ++ dir ++ [NUL]) ++ opts).length + 1 + (optRegion optFs).length + fs.length + 1 from by
      simp only [List.length_append, List.length_replicate, List.length_cons,
        List.length_nil]
      try omega] at h
    rw [show (((((((List.replicate o0 NUL ++ root ++ [NUL]) ++ dir ++ [NUL]) ++ opts) ++ NUL :: optRegion optFs) ++ fs ++ [NUL]) ++ src ++ [NUL]) ++ sup ++ NUL :: List.replicate ((((L.length + 1 - o0 - (root.length + 1) - (dir.length + 1) - (opts.length + 1) - (optRegion optFs).length) - (fs.length + 1)) - (src.length + 1)) - (sup.length + 1)) NUL) = (((((List.replicate o0 NUL ++ root ++ [NUL]) ++ dir ++ [NUL]) ++ opts) ++ NUL :: optRegion optFs) ++ fs ++ [NUL]) ++ (src ++ NUL :: (sup ++ NUL :: List.replicate ((((L.length + 1 - o0 - (root.length + 1) - (dir.length + 1) - (opts.length + 1) - (optRegion optFs).length) - (fs.length + 1)) - (src.length + 1)) - (sup.length + 1)) NUL)) from by
      simp [List.append_assoc]]
    exact h
  have e7 : bufString (((((((List.replicate o0 NUL ++ root ++ [NUL]) ++ dir ++ [NUL]) ++ opts) ++ NUL :: optRegion optFs) ++ fs ++ [NUL]) ++ src ++ [NUL]) ++ sup ++ NUL :: List.replicate ((((L.length + 1 - o0 - (root.length + 1) - (dir.length + 1) - (opts.length + 1) - (optRegion optFs).length) - (fs.length + 1)) - (src.length + 1)) - (sup.length + 1)) NUL) ((((List.replicate o0 NUL ++ root ++ [NUL]) ++ dir ++ [NUL]) ++ opts).length + 1 + (optRegion optFs).length + fs.length + 1 + src.length + 1) = sup := by
    have h := bufString_at ((((((List.replicate o0 NUL ++ root ++ [NUL]) ++ dir ++ [NUL]) ++ opts) ++ NUL :: optRegion optFs) ++ fs ++ [NUL]) ++ src ++ [NUL]) sup (List.replicate ((((L.length + 1 - o0 - (root.length + 1) - (dir.length + 1) - (opts.length + 1) - (optRegion optFs).length) - (fs.length + 1)) - (src.length + 1)) - (sup.length + 1)) NUL) (fun c hc => (isTok_mem hsup c hc).2)
    rw [show ((((((List.replicate o0 NUL ++ root ++ [NUL]) ++ dir ++ [NUL]) ++ opts) ++ NUL :: optRegion optFs) ++ fs ++ [NUL]) ++ src ++ [NUL] : List Char).length = (((List.replicate o0 NUL ++ root ++ [NUL]) ++ dir ++ [NUL]) ++ opts).length + 1 + (optRegion optFs).length + fs.length + 1 + src.length + 1 from by
      simp only [List.length_append, List.length_replicate, List.length_cons,
        List.length_nil]
      try omega] at h
    rw [show (((((((List.replicate o0 NUL ++ root ++ [NUL]) ++ dir ++ [NUL]) ++ opts) ++ NUL :: optRegion optFs) ++ fs ++ [NUL]) ++ src ++ [NUL]) ++ sup ++ NUL :: List.replicate ((((L.length + 1 - o0 - (root.length + 1) - (dir.length + 1) - (opts.length + 1) - (optRegion optFs).length) - (fs.length + 1)) - (src.length + 1)) - (sup.length + 1)) NUL) = ((((((List.replicate o0 NUL ++ root ++ [NUL]) ++ dir ++ [NUL]) ++ opts) ++ NUL :: optRegion optFs) ++ fs ++ [NUL]) ++ src ++ [NUL]) ++ (sup ++ NUL :: (List.replicate ((((L.length + 1 - o0 - (root.length + 1) - (dir.length + 1) - (opts.length + 1) - (optRegion optFs).length) - (fs.length + 1)) - (src.length + 1)) - (sup.length + 1)) NUL)) from by
      simp [List.append_assoc]]
    exact h
  rw [e1, e2, e3, e4, e5, e6, e7]

/-- Parsing a fully canonical line built by `mkLine`: every field is recovered
verbatim and the numeric fields convert to the given values. -/
theorem parse_mkLine (m p maj mnr : Nat) (root dir opts : List Char)
    (optFs : List (List Char)) (fs src sup : List Char)
    (hm : m < 2 ^ 31) (hp : p < 2 ^ 31) (hmaj : maj < 2 ^ 32) (hmnr : mnr < 2 ^ 32)
    (hroot : isTok root = true) (hrne : root ≠ [])
    (hdir : isTok dir = true) (hopts : isTok opts = true)
    (hoptFs : ∀ t ∈ optFs, isTok t = true ∧ t ≠ ['-'])
    (hfs : isTok fs = true) (hsrc : isTok src = true)
    (hsup : isTok sup = true) (hsne : sup ≠ []) :
    sc_parse_mountinfo_entry (mkLine m p maj mnr root dir opts optFs fs src sup) =
      some { mount_id := (m : Int), parent_id := (p : Int), dev_major := maj,
             dev_minor := mnr, root := root, mount_dir := dir, mount_opts := opts,
             optional_fields := joinSp optFs, fs_type := fs, mount_source := src,
             super_opts := sup } := by
  obtain ⟨rc, rt, hrc⟩ : ∃ rc rt, root = rc :: rt := by
    cases root with
    | nil => exact absurd rfl hrne
    | cons a b => exact ⟨a, b, rfl⟩
  have hrcw : isWs rc = false := (isTok_mem hroot rc (by rw [hrc]; simp)).1
  have hnum : scanNumeric (mkLine m p maj mnr root dir opts optFs fs src sup) =
      some (((m : Int), (p : Int), maj, mnr),
        (natChars m).length + (natChars p).length + (natChars maj).length +
          (natChars mnr).length + 4) := by
    rw [show mkLine m p maj mnr root dir opts optFs fs src sup =
      natChars m ++ (' ' :: natChars p) ++ (' ' :: natChars maj) ++
      (':' :: natChars mnr) ++ (' ' :: rc :: (rt ++ ' ' :: (dir ++ ' ' ::
      (opts ++ ' ' :: (renderOpts optFs ++ '-' :: ' ' :: (fs ++ ' ' ::
      (src ++ ' ' :: sup))))))) from by
        rw [hrc]; simp [mkLine, List.append_assoc]]
    exact scanNumeric_canonical m p maj mnr rc _ hm hp hmaj hmnr hrcw
  have hdrop0 : (mkLine m p maj mnr root dir opts optFs fs src sup).drop
      ((natChars m).length + (natChars p).length + (natChars maj).length +
        (natChars mnr).length + 4) =
      root ++ ' ' :: (dir ++ ' ' :: (opts ++ ' ' :: (renderOpts optFs ++
        '-' :: ' ' :: (fs ++ ' ' :: (src ++ ' ' :: sup))))) := by
    rw [show mkLine m p maj mnr root dir opts optFs fs src sup =
      (natChars m ++ (' ' :: natChars p) ++ (' ' :: natChars maj) ++
      (':' :: natChars mnr) ++ [' ']) ++ (root ++ ' ' :: (dir ++ ' ' ::
      (opts ++ ' ' :: (renderOpts optFs ++ '-' :: ' ' :: (fs ++ ' ' ::
      (src ++ ' ' :: sup)))))) from by simp [mkLine, List.append_assoc]]
    rw [show (natChars m).length + (natChars p).length + (natChars maj).length +
      (natChars mnr).length + 4 = (natChars m ++ (' ' :: natChars p) ++
      (' ' :: natChars maj) ++ (':' :: natChars mnr) ++ [' ']).length from by
        simp only [List.length_append, List.length_cons, List.length_nil,
          List.length_singleton]
        omega]
    exact List.drop_left _ _
  exact parse_canonical_line (mkLine m p maj mnr root dir opts optFs fs src sup)
    ((m : Int), (p : Int), maj, mnr)
    ((natChars m).length + (natChars p).length + (natChars maj).length +
      (natChars mnr).length + 4)
    root dir opts optFs fs src sup hnum hdrop0 hroot hdir hopts hoptFs hfs hsrc hsup hsne

/-!
Characterization of the root-hash scanning loop of `getRootHashFromOutput`. -/

theorem lastRootHash_cons_neg {l : List Char} {ls : List (List Char)}
    (hm : matchesRH l = false) :
    lastRootHash (l :: ls) = lastRootHash ls := by
  unfold lastRootHash
  rw [List.filter_cons]
  simp [hm]

theorem lastRootHash_cons_pos {l : List Char} {ls : List (List Char)}
    (hm : matchesRH l = true)
    (hne : ls.filter (fun x => matchesRH x) ≠ []) :
    lastRootHash (l :: ls) = lastRootHash ls := by
  unfold lastRootHash
  have hgl : ((l :: ls).filter (fun x => matchesRH x)).getLast? =
      (ls.filter (fun x => matchesRH x)).getLast? := by
    rw [List.filter_cons]
    simp only [hm, if_true]
    cases hfl : ls.filter (fun x => matchesRH x) with
    | nil => exact absurd hfl hne
    | cons x xs => exact List.getLast?_cons_cons
  rw [hgl]

theorem lastRootHash_cons_last {l : List Char} {ls : List (List Char)}
    (hm : matchesRH l = true)
    (hfl : ls.filter (fun x => matchesRH x) = []) :
    lastRootHash (l :: ls) = (colonSplit l).map (fun p => trimGo p.2) := by
  unfold lastRootHash
  rw [List.filter_cons]
  simp only [hm, if_true]
  rw [hfl]
  rfl

theorem lastRootHash_isSome : ∀ (ls : List (List Char)),
    (∀ l ∈ ls, matchesRH l = true → ':' ∈ l) →
    ls.filter (fun x => matchesRH x) ≠ [] →
    (lastRootHash ls).isSome = true := by
  intro ls
  induction ls with
  | nil => intro _ h; exact absurd rfl h
  | cons l ls ih =>
    intro hc hne
    by_cases hm : matchesRH l
    · by_cases hfl : ls.filter (fun x => matchesRH x) = []
      · rw [lastRootHash_cons_last hm hfl]
        have hcol : ':' ∈ l := hc l (by simp) hm
        unfold colonSplit
        rw [if_pos hcol]
        rfl
      · rw [lastRootHash_cons_pos hm hfl]
        exact ih (fun x hx => hc x (by simp [hx])) hfl
    · have hm' : matchesRH l = false := by simpa using hm
      rw [lastRootHash_cons_neg hm']
      refine ih (fun x hx => hc x (by simp [hx])) ?_
      intro hfl
      apply hne
      rw [List.filter_cons]
      simp [hm', hfl]

theorem rootHashScan_eq : ∀ (ls : List (List Char)) (acc : List Char),
    (∀ l ∈ ls, matchesRH l = true → ':' ∈ l) →
    rootHashScan ls acc = some ((lastRootHash ls).getD acc) := by
  intro ls
  induction ls with
  | nil => intro acc _; rfl
  | cons l ls ih =>
    intro acc hc
    have hctail : ∀ x ∈ ls, matchesRH x = true → ':' ∈ x :=
      fun x hx => hc x (by simp [hx])
    by_cases hm : matchesRH l
    · have hcol : ':' ∈ l := hc l (by simp) hm
      have hcs : colonSplit l = some (l.takeWhile (fun c => c ≠ ':'),
          (l.dropWhile (fun c => c ≠ ':')).tail) := by
        unfold colonSplit
        rw [if_pos hcol]
      have hstep : rootHashScan (l :: ls) acc =
          rootHashScan ls (trimGo ((l.dropWhile (fun c => c ≠ ':')).tail)) := by
        simp only [rootHashScan, hm, hcs, if_true]
      rw [hstep, ih _ hctail]
      by_cases hfl : ls.filter (fun x => matchesRH x) = []
      · have h1 : lastRootHash ls = none := by
          unfold lastRootHash
          rw [hfl]
          rfl
        rw [h1, lastRootHash_cons_last hm hfl, hcs]
        rfl
      · rw [lastRootHash_cons_pos hm hfl]
        obtain ⟨h, hh⟩ := Option.isSome_iff_exists.mp (lastRootHash_isSome ls hctail hfl)
        rw [hh]
        rfl
    · have hm' : matchesRH l = false := by simpa using hm
      have hstep : rootHashScan (l :: ls) acc = rootHashScan ls acc := by
        simp only [rootHashScan, hm', Bool.false_eq_true, if_false]
      rw [hstep, ih _ hctail, lastRootHash_cons_neg hm']

theorem rhColonOK_colon {output : List Char} (hc : rhColonOK output = true) :
    ∀ l ∈ scanLines output, matchesRH l = true → ':' ∈ l := by
  intro l hl hml
  have h := List.all_eq_true.mp hc l hl
  rw [hml] at h
  simpa using h

theorem splitNl_no_nl : ∀ l : List Char, '\n' ∉ l → splitNl l = [l]
  | [], _ => rfl
  | c :: r, h => by
    have hc : ¬(c = '\n') := fun he => h (he ▸ List.mem_cons_self c r)
    have hr : '\n' ∉ r := fun hm => h (List.mem_cons_of_mem c hm)
    simp only [splitNl, hc, if_false]
    rw [splitNl_no_nl r hr]

/-- The modelled `bufio.ErrTooLong` outcome is reachable: any line of 64 KiB or
more without a newline overflows the scanner's buffer. -/
theorem scanErrTooLong_long_line (n : Nat) (h : maxScanTokenSize ≤ n) :
    scanErrTooLong (List.replicate n 'a') = true := by
  have hnl : '\n' ∉ List.replicate n 'a' := by
    intro hm
    exact absurd (List.eq_of_mem_replicate hm) (by decide)
  have hlen : utf8Len (List.replicate n 'a') = n := by
    unfold utf8Len
    rw [List.map_replicate, show ('a').utf8Size = 1 from rfl, List.sum_replicate]
    simp
  unfold scanErrTooLong
  rw [splitNl_no_nl _ hnl]
  unfold scanTokens
  rw [if_pos (by rw [hlen]; exact h)]

/-- `strings.TrimSpace` trims beyond ASCII: a no-break space (U+00A0) is removed,
so a value made only of one is trimmed to the empty string. -/
theorem trimGo_nbsp : trimGo [Char.ofNat 160] = [] := by decide

/-!
Rendering lemmas for the round-trip property. -/

theorem intChars_coe (n : Nat) : intChars (n : Int) = natChars n := by
  unfold intChars
  rw [if_neg (by omega)]
  rfl

theorem renderOpts_eq_joinSp : ∀ ts : List (List Char), ts ≠ [] →
    renderOpts ts = joinSp ts ++ [' ']
  | [], h => absurd rfl h
  | [t], _ => by simp [renderOpts, joinSp]
  | t :: u :: ts, _ => by
    have ih := renderOpts_eq_joinSp (u :: ts) (by simp)
    show t ++ ' ' :: renderOpts (u :: ts) = (t ++ ' ' :: joinSp (u :: ts)) ++ [' ']
    rw [ih]
    simp

theorem joinSp_ne_nil {t : List Char} {ts : List (List Char)} (ht : t ≠ []) :
    joinSp (t :: ts) ≠ [] := by
  cases ts with
  | nil => simpa [joinSp] using ht
  | cons u us =>
    show ¬(t ++ ' ' :: joinSp (u :: us) = [])
    simp

/-!
Word decomposition of a line and failure of the optional-fields loop when no `-`
token occurs (claim C3 support). -/

theorem lineWords_dropWhile : ∀ l : List Char, lineWords (l.dropWhile isWs) = lineWords l
  | [] => rfl
  | c :: r => by
    rw [lineWords_cons]
    by_cases h : isWs c
    · rw [if_pos h, List.dropWhile_cons, if_pos h]
      exact lineWords_dropWhile r
    · rw [if_neg h, List.dropWhile_cons, if_neg h, lineWords_cons, if_neg h]

theorem scanTok_words {s : List Char} {t : List Char} {d : Nat}
    (h : scanTok s = some (t, d)) :
    lineWords s = t :: lineWords (s.drop d) := by
  obtain ⟨ht, hd, hne⟩ := scanTok_eq h
  obtain ⟨c, rest, hR⟩ : ∃ c rest, s.dropWhile isWs = c :: rest := by
    cases hR : s.dropWhile isWs with
    | nil =>
      rw [hR] at ht
      simp at ht
      exact absurd ht hne
    | cons c rest => exact ⟨c, rest, rfl⟩
  have hcw : isWs c = false := by
    by_contra hcon
    have hctrue : isWs c = true := by simpa using hcon
    rw [hR, takeWhile_head_false _ (by simp [hctrue])] at ht
    exact absurd ht hne
  have ht' : t = c :: rest.takeWhile (fun x => !isWs x) := by
    rw [ht, hR]
    simp [List.takeWhile_cons, hcw]
  have hwords : lineWords s = t :: lineWords (rest.dropWhile (fun x => !isWs x)) := by
    rw [← lineWords_dropWhile s, hR, lineWords_cons, if_neg (by simp [hcw]), ← ht']
  have h1 : s = s.takeWhile isWs ++ (t ++ rest.dropWhile (fun x => !isWs x)) := by
    conv_lhs => rw [← List.takeWhile_append_dropWhile (p := isWs) (l := s)]
    rw [hR, ht']
    rw [show (c :: rest.takeWhile (fun x => !isWs x)) ++ rest.dropWhile (fun x => !isWs x)
      = c :: rest from by
        rw [List.cons_append, List.takeWhile_append_dropWhile]]
  have hdrop : s.drop d = rest.dropWhile (fun x => !isWs x) := by
    conv_lhs => rw [h1]
    rw [show d = (s.takeWhile isWs).length + t.length from by rw [hd, wsCount]]
    rw [← List.drop_drop, List.drop_left, List.drop_left]
  rw [hwords, hdrop]

theorem writeStr_length : ∀ (t : List Char) (buf : List Char) (o : Nat),
    (writeStr buf o t).length = buf.length
  | [], buf, o => by simp [writeStr]
  | c :: cs, buf, o => by
    simp only [writeStr]
    rw [writeStr_length cs]
    simp

theorem bufString_writeStr (buf : List Char) (o : Nat) (t : List Char)
    (hlen : o + t.length + 1 ≤ buf.length) (ht : ∀ c ∈ t, (c != NUL) = true) :
    bufString (writeStr buf o t) o = t := by
  have hsplit : buf = buf.take o ++ buf.drop o := (List.take_append_drop o buf).symm
  have hlo : (buf.take o).length = o := by
    rw [List.length_take]
    omega
  have hw := writeStr_append t (buf.take o) (buf.drop o)
    (by simp only [List.length_drop]; omega)
  rw [hlo, ← hsplit] at hw
  rw [hw]
  have hb := bufString_at (buf.take o) t ((buf.drop o).drop (t.length + 1)) ht
  rw [hlo] at hb
  rw [show buf.take o ++ t ++ NUL :: (buf.drop o).drop (t.length + 1) =
    buf.take o ++ (t ++ NUL :: (buf.drop o).drop (t.length + 1)) from by simp]
  exact hb

theorem bufString_set_nul (buf : List Char) (o : Nat) :
    bufString (buf.set o NUL) o = [] := by
  unfold bufString
  by_cases ho : o < buf.length
  · rw [List.drop_eq_getElem_cons (by simpa using ho)]
    rw [List.getElem_set_self]
    rw [takeWhile_head_false _ (by simp)]
  · rw [List.drop_eq_nil_of_le (by simpa using (by omega : buf.length ≤ o))]
    rfl

theorem pnsf_buf_length {line : List Char} {s : PS} {f : Nat} {s' : PS}
    (h : parse_next_string_field line s = some (f, s')) :
    s'.buf.length = s.buf.length := by
  unfold parse_next_string_field at h
  by_cases hsp : lineGet line s.offset = ' '
  · rw [if_pos hsp] at h
    simp only [Option.some.injEq, Prod.mk.injEq] at h
    obtain ⟨_, hs⟩ := h
    rw [← hs]
    simp
  · rw [if_neg hsp] at h
    cases htok : scanTok (line.drop s.offset) with
    | none => rw [htok] at h; exact absurd h (by simp)
    | some td =>
      obtain ⟨t, d⟩ := td
      rw [htok] at h
      simp only [Option.some.injEq, Prod.mk.injEq] at h
      obtain ⟨_, hs⟩ := h
      rw [← hs]
      simp [writeStr_length]

theorem parseLeading_buf_length {line : List Char} {ids : Int × Int × Nat × Nat}
    {r0 d0 o0' : Nat} {s3 : PS}
    (h : parseLeading line = some (ids, r0, d0, o0', s3)) :
    s3.buf.length = line.length + 1 := by
  cases hn : scanNumeric line with
  | none => simp [parseLeading, hn] at h
  | some v =>
    obtain ⟨ids0, o0⟩ := v
    cases hp1 : parse_next_string_field line ⟨List.replicate (line.length + 1) NUL, o0⟩ with
    | none => simp [parseLeading, hn, hp1] at h
    | some v1 =>
      obtain ⟨f1, s1⟩ := v1
      cases hp2 : parse_next_string_field line s1 with
      | none => simp [parseLeading, hn, hp1, hp2] at h
      | some v2 =>
        obtain ⟨f2, s2⟩ := v2
        cases hp3 : parse_next_string_field line s2 with
        | none => simp [parseLeading, hn, hp1, hp2, hp3] at h
        | some v3 =>
          obtain ⟨f3, s3'⟩ := v3
          simp only [parseLeading, hn, hp1, hp2, hp3, Option.some.injEq,
            Prod.mk.injEq] at h
          obtain ⟨_, _, _, _, hs3⟩ := h
          have e1 : s1.buf.length = line.length + 1 := by
            have := pnsf_buf_length hp1
            simpa using this
          have e2 := pnsf_buf_length hp2
          have e3 := pnsf_buf_length hp3
          rw [← hs3]
          omega

theorem optLoopF_none {line : List Char} (hnul : NUL ∉ line) :
    ∀ (fuel : Nat) (s : PS) (k : Nat), s.buf.length = line.length + 1 →
    (∀ t ∈ lineWords (line.drop s.offset), t ≠ ['-']) →
    optLoopF line fuel s k = none := by
  intro fuel
  induction fuel with
  | zero => intro s k _ _; rfl
  | succ n ih =>
    intro s k hb hw
    cases hp : parse_next_string_field line s with
    | none => simp [optLoopF, hp]
    | some v =>
      obtain ⟨f, s'⟩ := v
      simp only [optLoopF, hp]
      have hp0 := hp
      unfold parse_next_string_field at hp
      by_cases hsp : lineGet line s.offset = ' '
      · rw [if_pos hsp] at hp
        simp only [Option.some.injEq, Prod.mk.injEq] at hp
        obtain ⟨hpf, hps⟩ := hp
        have hread : bufString s'.buf f = [] := by
          rw [← hps, ← hpf]
          exact bufString_set_nul s.buf s.offset
        rw [hread, if_neg (by decide)]
        have hlt := lineGet_space_lt hsp
        have hdropc : line.drop s.offset = ' ' :: line.drop (s.offset + 1) := by
          rw [List.drop_eq_getElem_cons hlt]
          congr 1
          rw [← List.getD_eq_getElem line NUL hlt]
          exact hsp
        apply ih
        · show (if k > 0 then s'.buf.set (f - 1) ' ' else s'.buf).length = line.length + 1
          have hs'b : s'.buf = s.buf.set s.offset NUL := by rw [← hps]
          by_cases hk : k > 0
          · rw [if_pos hk]
            simp [hs'b, hb]
          · rw [if_neg hk]
            simp [hs'b, hb]
        · intro u hu
          apply hw
          rw [hdropc, lineWords_cons, if_pos (by decide)]
          rw [← hps] at hu
          simpa using hu
      · rw [if_neg hsp] at hp
        cases htok : scanTok (line.drop s.offset) with
        | none => rw [htok] at hp; exact absurd hp (by simp)
        | some td =>
          obtain ⟨t, d⟩ := td
          rw [htok] at hp
          simp only [Option.some.injEq, Prod.mk.injEq] at hp
          obtain ⟨hpf, hps⟩ := hp
          obtain ⟨htw, hdw, htne⟩ := scanTok_eq htok
          have hwords := scanTok_words htok
          have htm : t ≠ ['-'] := hw t (by rw [hwords]; simp)
          have hnulfree : ∀ c ∈ t, (c != NUL) = true := by
            intro c hc
            have hcl : c ∈ line := by
              rw [htw] at hc
              have h2 := (List.takeWhile_sublist _).subset hc
              have h3 := (List.dropWhile_sublist _).subset h2
              exact (List.drop_sublist _ _).subset h3
            have hcne : c ≠ NUL := fun he => hnul (he ▸ hcl)
            simpa using hcne
          have hdle : d ≤ line.length - s.offset := by
            have h2 := (scanTok_bounds htok).2.1
            simpa using h2
          have hd1 : 1 ≤ d := (scanTok_bounds htok).1
          have hread : bufString s'.buf f = t := by
            rw [← hps, ← hpf]
            apply bufString_writeStr
            · rw [hb]
              omega
            · exact hnulfree
          rw [hread, if_neg htm]
          have hW : lineWords (line.drop s'.offset) =
              lineWords ((line.drop s.offset).drop d) := by
            rw [List.drop_drop]
            by_cases hc2 : lineGet line (s.offset + d) = ' '
            · have hoff : s'.offset = s.offset + d + 1 := by rw [← hps]; simp [hc2]
              have hlt2 := lineGet_space_lt hc2
              have hdropc : line.drop (s.offset + d) = ' ' :: line.drop (s.offset + d + 1) := by
                rw [List.drop_eq_getElem_cons hlt2]
                congr 1
                rw [← List.getD_eq_getElem line NUL hlt2]
                exact hc2
              rw [hoff, hdropc, lineWords_cons, if_pos (by decide)]
            · have hoff : s'.offset = s.offset + d := by rw [← hps]; simp [hc2]
              rw [hoff]
          apply ih
          · by_cases hk : k > 0
            · rw [if_pos hk]
              show (s'.buf.set (f - 1) ' ').length = line.length + 1
              rw [List.length_set, ← hps]
              simpa [writeStr_length] using hb
            · rw [if_neg hk]
              show s'.buf.length = line.length + 1
              rw [← hps]
              simpa [writeStr_length] using hb
          · intro u hu
            apply hw
            rw [hwords]
            refine List.mem_cons_of_mem t ?_
            rw [← hW]
            simpa using hu

theorem optLoop_none {line : List Char} {s : PS} {k : Nat} (hnul : NUL ∉ line)
    (hb : s.buf.length = line.length + 1)
    (hw : ∀ t ∈ lineWords (line.drop s.offset), t ≠ ['-']) :
    optLoop line s k = none :=
  optLoopF_none hnul _ s k hb hw

/-!
Invariance of the parse under one trailing newline (claim C5 support): every
scanning primitive gives the same answer on `line ++ ['\n']` as on `line`, except
that the final whitespace skip of the numeric conversion can swallow the newline
when nothing follows the numerics — and then both parses fail at the next field. -/

theorem takeWhile_snoc_false {p : Char → Bool} {c : Char} (h : p c = false) :
    ∀ X : List Char, (X ++ [c]).takeWhile p = X.takeWhile p
  | [] => by simp [List.takeWhile_cons, h]
  | a :: X => by
    by_cases ha : p a
    · simp only [List.cons_append, List.takeWhile_cons, ha, if_true, List.cons.injEq,
        true_and]
      exact takeWhile_snoc_false h X
    · simp [List.takeWhile_cons, ha]

theorem dropWhile_append_ne {p : Char → Bool} :
    ∀ (A : List Char) (B : List Char), A.dropWhile p ≠ [] →
      (A ++ B).dropWhile p = A.dropWhile p ++ B
  | [], _, h => absurd rfl h
  | a :: A, B, h => by
    by_cases ha : p a
    · simp only [List.cons_append, List.dropWhile_cons, ha, if_true]
      simp only [List.dropWhile_cons, ha, if_true] at h
      exact dropWhile_append_ne A B h
    · simp [List.dropWhile_cons, ha]

theorem takeWhile_append_ne {p : Char → Bool} :
    ∀ (A : List Char) (B : List Char), A.dropWhile p ≠ [] →
      (A ++ B).takeWhile p = A.takeWhile p
  | [], _, h => absurd rfl h
  | a :: A, B, h => by
    by_cases ha : p a
    · simp only [List.cons_append, List.takeWhile_cons, ha, if_true, List.cons.injEq,
        true_and]
      simp only [List.dropWhile_cons, ha, if_true] at h
      exact takeWhile_append_ne A B h
    · simp [List.takeWhile_cons, ha]

theorem drop_wsCount : ∀ X : List Char, X.drop (wsCount X) = X.dropWhile isWs
  | [] => rfl
  | c :: X => by
    by_cases h : isWs c
    · have hw : wsCount (c :: X) = wsCount X + 1 := by
        simp [wsCount, List.takeWhile_cons, h]
      rw [hw, List.drop_succ_cons, List.dropWhile_cons, if_pos h]
      exact drop_wsCount X
    · have hw : wsCount (c :: X) = 0 := by
        simp [wsCount, List.takeWhile_cons, h]
      rw [hw, List.dropWhile_cons, if_neg h]
      rfl

theorem scanTok_snoc (s : List Char) : scanTok (s ++ ['\n']) = scanTok s := by
  cases hE : s.dropWhile isWs with
  | nil =>
    have hall : ∀ x ∈ s, isWs x = true := by
      have h0 := List.dropWhile_eq_nil_iff.mp hE
      intro x hx
      simpa using h0 x hx
    simp only [scanTok]
    rw [dropWhile_append_all ['\n'] hall, hE]
    rw [show (['\n'] : List Char).dropWhile isWs = [] from by decide]
    simp
  | cons c rest =>
    have hne : s.dropWhile isWs ≠ [] := by rw [hE]; simp
    simp only [scanTok]
    rw [dropWhile_append_ne s ['\n'] hne]
    rw [takeWhile_snoc_false (by decide) (s.dropWhile isWs)]
    rw [show wsCount (s ++ ['\n']) = wsCount s from by
      unfold wsCount
      rw [takeWhile_append_ne s ['\n'] hne]]

theorem digitRun_snoc_nl (X : List Char) : digitRun (X ++ ['\n']) = digitRun X := by
  unfold digitRun
  exact takeWhile_snoc_false (by decide) X

theorem scanInt_snoc (s : List Char) : scanInt (s ++ ['\n']) = scanInt s := by
  cases hE : s.dropWhile isWs with
  | nil =>
    have hall : ∀ x ∈ s, isWs x = true := by
      have h0 := List.dropWhile_eq_nil_iff.mp hE
      intro x hx
      simpa using h0 x hx
    simp only [scanInt]
    rw [dropWhile_append_all ['\n'] hall, hE]
    rw [show (['\n'] : List Char).dropWhile isWs = [] from by decide]
    simp [digitRun]
  | cons c rest =>
    have hne : s.dropWhile isWs ≠ [] := by rw [hE]; simp
    simp only [scanInt]
    rw [dropWhile_append_ne s ['\n'] hne]
    rw [show wsCount (s ++ ['\n']) = wsCount s from by
      unfold wsCount
      rw [takeWhile_append_ne s ['\n'] hne]]
    rw [hE]
    simp only [List.cons_append, List.headD_cons]
    by_cases hsk : (c = '-' || c = '+') = true
    · rw [if_pos hsk]
      simp only [List.drop_succ_cons, List.drop_zero]
      rw [digitRun_snoc_nl rest]
    · rw [if_neg hsk]
      simp only [List.drop_zero]
      rw [show c :: (rest ++ ['\n']) = (c :: rest) ++ ['\n'] from rfl]
      rw [digitRun_snoc_nl]

theorem scanInt_bounds {s : List Char} {a : Int} {d : Nat}
    (h : scanInt s = some (a, d)) : 1 ≤ d ∧ d ≤ s.length := by
  simp only [scanInt] at h
  have e1 : (s.takeWhile isWs).length + (s.dropWhile isWs).length = s.length := by
    rw [← List.length_append, List.takeWhile_append_dropWhile]
  have ew : wsCount s = (s.takeWhile isWs).length := rfl
  by_cases hsk : ((s.dropWhile isWs).headD NUL = '-' ||
      (s.dropWhile isWs).headD NUL = '+') = true
  · rw [if_pos hsk] at h
    have hrne : s.dropWhile isWs ≠ [] := by
      intro h0
      rw [h0] at hsk
      exact absurd hsk (by decide)
    have hrlen : 1 ≤ (s.dropWhile isWs).length := by
      cases hc : s.dropWhile isWs with
      | nil => exact absurd hc hrne
      | cons x xs => simp [hc]
    by_cases he : (digitRun ((s.dropWhile isWs).drop 1)).isEmpty
    · rw [if_pos he] at h
      exact absurd h (by simp)
    · rw [if_neg he] at h
      have h2 := Option.some.inj h
      have hd := congrArg Prod.snd h2
      dsimp only at hd
      have hdne : 1 ≤ (digitRun ((s.dropWhile isWs).drop 1)).length := by
        have hx : digitRun ((s.dropWhile isWs).drop 1) ≠ [] := by
          simpa [List.isEmpty_iff] using he
        cases hc : digitRun ((s.dropWhile isWs).drop 1) with
        | nil => exact absurd hc hx
        | cons x xs => simp [hc]
      have hds : (digitRun ((s.dropWhile isWs).drop 1)).length ≤
          (s.dropWhile isWs).length - 1 := by
        unfold digitRun
        have h5 := takeWhile_length_le (fun c => c.isDigit) ((s.dropWhile isWs).drop 1)
        simpa [List.length_drop] using h5
      omega
  · rw [if_neg hsk] at h
    by_cases he : (digitRun ((s.dropWhile isWs).drop 0)).isEmpty
    · rw [if_pos he] at h
      exact absurd h (by simp)
    · rw [if_neg he] at h
      have h2 := Option.some.inj h
      have hd := congrArg Prod.snd h2
      dsimp only at hd
      have hdne : 1 ≤ (digitRun ((s.dropWhile isWs).drop 0)).length := by
        have hx : digitRun ((s.dropWhile isWs).drop 0) ≠ [] := by
          simpa [List.isEmpty_iff] using he
        cases hc : digitRun ((s.dropWhile isWs).drop 0) with
        | nil => exact absurd hc hx
        | cons x xs => simp [hc]
      have hds : (digitRun ((s.dropWhile isWs).drop 0)).length ≤
          (s.dropWhile isWs).length := by
        unfold digitRun
        have h5 := takeWhile_length_le (fun c => c.isDigit) ((s.dropWhile isWs).drop 0)
        simpa using h5
      omega

theorem wsCount_snoc_nl (X : List Char) :
    wsCount (X ++ ['\n']) =
      if X.dropWhile isWs = [] then wsCount X + 1 else wsCount X := by
  by_cases hE : X.dropWhile isWs = []
  · rw [if_pos hE]
    have hall : ∀ x ∈ X, isWs x = true := by
      have h0 := List.dropWhile_eq_nil_iff.mp hE
      intro x hx
      simpa using h0 x hx
    unfold wsCount
    rw [takeWhile_append_all ['\n'] hall]
    rw [show (['\n'] : List Char).takeWhile isWs = ['\n'] from by decide]
    have hlen : (X.takeWhile isWs).length = X.length := by
      have e1 : (X.takeWhile isWs).length + (X.dropWhile isWs).length = X.length := by
        rw [← List.length_append, List.takeWhile_append_dropWhile]
      rw [hE] at e1
      simpa using e1
    simp [hlen]
  · rw [if_neg hE]
    unfold wsCount
    rw [takeWhile_append_ne X ['\n'] hE]

theorem wsCount_all (X : List Char) (hE : X.dropWhile isWs = []) :
    wsCount X = X.length := by
  have e1 : (X.takeWhile isWs).length + (X.dropWhile isWs).length = X.length := by
    rw [← List.length_append, List.takeWhile_append_dropWhile]
  rw [hE] at e1
  unfold wsCount
  simpa using e1

theorem scanNumeric_snoc (line : List Char) :
    scanNumeric (line ++ ['\n']) =
      (scanNumeric line).map
        (fun v => (v.1, if v.2 = line.length then v.2 + 1 else v.2)) ∧
    (∀ ids o, scanNumeric line = some (ids, o) → o ≤ line.length) := by
  cases h1 : scanInt line with
  | none =>
    have hline : scanNumeric line = none := by simp only [scanNumeric, h1]
    have happ : scanNumeric (line ++ ['\n']) = none := by
      simp only [scanNumeric, scanInt_snoc, h1]
    refine ⟨by rw [hline, happ]; rfl, ?_⟩
    intro ids o h
    rw [hline] at h
    exact absurd h (by simp)
  | some v1 =>
    obtain ⟨a, o1⟩ := v1
    obtain ⟨hb1a, hb1b⟩ := scanInt_bounds h1
    have hx1 : (line ++ ['\n']).drop o1 = line.drop o1 ++ ['\n'] :=
      List.drop_append_of_le_length (by omega)
    cases h2 : scanInt (line.drop o1) with
    | none =>
      have hline : scanNumeric line = none := by simp only [scanNumeric, h1, h2]
      have happ : scanNumeric (line ++ ['\n']) = none := by
        simp only [scanNumeric, scanInt_snoc, h1, hx1, h2]
      refine ⟨by rw [hline, happ]; rfl, ?_⟩
      intro ids o h
      rw [hline] at h
      exact absurd h (by simp)
    | some v2 =>
      obtain ⟨b, d2⟩ := v2
      obtain ⟨hb2a, hb2b⟩ := scanInt_bounds h2
      have ho2 : o1 + d2 ≤ line.length := by
        simp only [List.length_drop] at hb2b
        omega
      have hx2 : (line ++ ['\n']).drop (o1 + d2) = line.drop (o1 + d2) ++ ['\n'] :=
        List.drop_append_of_le_length ho2
      cases h3 : scanInt (line.drop (o1 + d2)) with
      | none =>
        have hline : scanNumeric line = none := by simp only [scanNumeric, h1, h2, h3]
        have happ : scanNumeric (line ++ ['\n']) = none := by
          simp only [scanNumeric, scanInt_snoc, h1, hx1, h2, hx2, h3]
        refine ⟨by rw [hline, happ]; rfl, ?_⟩
        intro ids o h
        rw [hline] at h
        exact absurd h (by simp)
      | some v3 =>
        obtain ⟨c, d3⟩ := v3
        obtain ⟨hb3a, hb3b⟩ := scanInt_bounds h3
        have ho3 : o1 + d2 + d3 ≤ line.length := by
          simp only [List.length_drop] at hb3b
          omega
        by_cases hcol : lineGet line (o1 + d2 + d3) = ':'
        · have hlt3 : o1 + d2 + d3 < line.length := by
            by_contra hcon
            rw [lineGet_past_end (by omega)] at hcol
            exact absurd hcol (by decide)
          have hcol2 : lineGet (line ++ ['\n']) (o1 + d2 + d3) = ':' := by
            rw [lineGet, List.getD_append _ _ _ _ hlt3]
            exact hcol
          have hx3 : (line ++ ['\n']).drop (o1 + d2 + d3 + 1) =
              line.drop (o1 + d2 + d3 + 1) ++ ['\n'] :=
            List.drop_append_of_le_length (by omega)
          cases h4 : scanInt (line.drop (o1 + d2 + d3 + 1)) with
          | none =>
            have hline : scanNumeric line = none := by
              simp only [scanNumeric, h1, h2, h3, hcol, eq_self_iff_true, if_true, h4]
            have happ : scanNumeric (line ++ ['\n']) = none := by
              simp only [scanNumeric, scanInt_snoc, h1, hx1, h2, hx2, h3, hcol2,
                eq_self_iff_true, if_true, hx3, h4]
            refine ⟨by rw [hline, happ]; rfl, ?_⟩
            intro ids o h
            rw [hline] at h
            exact absurd h (by simp)
          | some v4 =>
            obtain ⟨dd, d4⟩ := v4
            obtain ⟨hb4a, hb4b⟩ := scanInt_bounds h4
            have ho4 : o1 + d2 + d3 + 1 + d4 ≤ line.length := by
              simp only [List.length_drop] at hb4b
              omega
            have hx4 : (line ++ ['\n']).drop (o1 + d2 + d3 + 1 + d4) =
                line.drop (o1 + d2 + d3 + 1 + d4) ++ ['\n'] :=
              List.drop_append_of_le_length ho4
            have hline : scanNumeric line =
                some ((toInt32 a, toInt32 b, toUInt32 c, toUInt32 dd),
                  o1 + d2 + d3 + 1 + d4 +
                    wsCount (line.drop (o1 + d2 + d3 + 1 + d4))) := by
              simp only [scanNumeric, h1, h2, h3, hcol, eq_self_iff_true, if_true, h4]
            have happ : scanNumeric (line ++ ['\n']) =
                some ((toInt32 a, toInt32 b, toUInt32 c, toUInt32 dd),
                  o1 + d2 + d3 + 1 + d4 +
                    wsCount (line.drop (o1 + d2 + d3 + 1 + d4) ++ ['\n'])) := by
              simp only [scanNumeric, scanInt_snoc, h1, hx1, h2, hx2, h3, hcol2,
                eq_self_iff_true, if_true, hx3, h4, hx4]
            have hdw : line.drop (o1 + d2 + d3 + 1 + d4 +
                wsCount (line.drop (o1 + d2 + d3 + 1 + d4))) =
                (line.drop (o1 + d2 + d3 + 1 + d4)).dropWhile isWs := by
              rw [← List.drop_drop]
              exact drop_wsCount (line.drop (o1 + d2 + d3 + 1 + d4))
            constructor
            · rw [hline, happ, wsCount_snoc_nl]
              by_cases hE : (line.drop (o1 + d2 + d3 + 1 + d4)).dropWhile isWs = []
              · rw [if_pos hE]
                have hwa := wsCount_all _ hE
                rw [List.length_drop] at hwa
                rw [show (Option.map
                    (fun v => (v.1, if v.2 = line.length then v.2 + 1 else v.2))
                    (some ((toInt32 a, toInt32 b, toUInt32 c, toUInt32 dd),
                      o1 + d2 + d3 + 1 + d4 +
                        wsCount (line.drop (o1 + d2 + d3 + 1 + d4))))) =
                  some ((toInt32 a, toInt32 b, toUInt32 c, toUInt32 dd),
                    if o1 + d2 + d3 + 1 + d4 +
                        wsCount (line.drop (o1 + d2 + d3 + 1 + d4)) = line.length
                      then o1 + d2 + d3 + 1 + d4 +
                        wsCount (line.drop (o1 + d2 + d3 + 1 + d4)) + 1
                      else o1 + d2 + d3 + 1 + d4 +
                        wsCount (line.drop (o1 + d2 + d3 + 1 + d4))) from rfl]
                rw [if_pos (by omega)]
                refine congrArg some (congrArg _ ?_)
                omega
              · rw [if_neg hE]
                have hwlt := List.length_lt_of_drop_ne_nil (by rw [hdw]; exact hE)
                rw [show (Option.map
                    (fun v => (v.1, if v.2 = line.length then v.2 + 1 else v.2))
                    (some ((toInt32 a, toInt32 b, toUInt32 c, toUInt32 dd),
                      o1 + d2 + d3 + 1 + d4 +
                        wsCount (line.drop (o1 + d2 + d3 + 1 + d4))))) =
                  some ((toInt32 a, toInt32 b, toUInt32 c, toUInt32 dd),
                    if o1 + d2 + d3 + 1 + d4 +
                        wsCount (line.drop (o1 + d2 + d3 + 1 + d4)) = line.length
                      then o1 + d2 + d3 + 1 + d4 +
                        wsCount (line.drop (o1 + d2 + d3 + 1 + d4)) + 1
                      else o1 + d2 + d3 + 1 + d4 +
                        wsCount (line.drop (o1 + d2 + d3 + 1 + d4))) from rfl]
                rw [if_neg (by omega)]
            · intro ids o h
              rw [hline] at h
              have h2' := Option.some.inj h
              have ho := congrArg Prod.snd h2'
              dsimp only at ho
              by_cases hE : (line.drop (o1 + d2 + d3 + 1 + d4)).dropWhile isWs = []
              · have hwa := wsCount_all _ hE
                rw [List.length_drop] at hwa
                omega
              · have hwlt := List.length_lt_of_drop_ne_nil (by rw [hdw]; exact hE)
                omega
        · have hcol2 : ¬ lineGet (line ++ ['\n']) (o1 + d2 + d3) = ':' := by
            by_cases hlt3 : o1 + d2 + d3 < line.length
            · rw [lineGet, List.getD_append _ _ _ _ hlt3]
              exact hcol
            · have he3 : o1 + d2 + d3 = line.length := by omega
              rw [he3, lineGet]
              rw [show (line ++ ['\n']).getD line.length NUL = '\n' from
                getD_append_len line '\n' [] NUL]
              decide
          have hline : scanNumeric line = none := by
            simp only [scanNumeric, h1, h2, h3, hcol, if_false]
          have happ : scanNumeric (line ++ ['\n']) = none := by
            simp only [scanNumeric, scanInt_snoc, h1, hx1, h2, hx2, h3, hcol2, if_false]
          refine ⟨by rw [hline, happ]; rfl, ?_⟩
          intro ids o h
          rw [hline] at h
          exact absurd h (by simp)

theorem set_append_lt : ∀ (b : List Char) (X : List Char) (o : Nat) (c : Char),
    o < b.length → (b ++ X).set o c = b.set o c ++ X
  | [], _, _, _, h => by simp at h
  | _ :: _, _, 0, _, _ => rfl
  | a :: b, X, o + 1, c, h => by
    simp only [List.cons_append, List.set_cons_succ]
    rw [set_append_lt b X o c (by simpa using h)]

theorem writeStr_append_lt : ∀ (t : List Char) (b X : List Char) (o : Nat),
    o + t.length < b.length →
    writeStr (b ++ X) o t = writeStr b o t ++ X
  | [], b, X, o, h => by
    simp only [writeStr]
    exact set_append_lt b X o NUL (by simpa using h)
  | c :: cs, b, X, o, h => by
    simp only [writeStr]
    rw [set_append_lt b X o c (by simp only [List.length_cons] at h; omega)]
    exact writeStr_append_lt cs (b.set o c) X (o + 1)
      (by simp only [List.length_set, List.length_cons] at h ⊢; omega)

theorem bufString_snoc_nul (b : List Char) (o : Nat) :
    bufString (b ++ [NUL]) o = bufString b o := by
  unfold bufString
  by_cases ho : o ≤ b.length
  · rw [List.drop_append_of_le_length ho]
    exact takeWhile_snoc_false (by simp) (b.drop o)
  · have h1 : (b ++ [NUL]).drop o = [] := by
      apply List.drop_eq_nil_of_le
      simp only [List.length_append, List.length_cons, List.length_nil]
      omega
    have h2 : b.drop o = [] := List.drop_eq_nil_of_le (by omega)
    rw [h1, h2]

theorem pnsf_snoc {line : List Char} (s : PS)
    (hb : s.buf.length = line.length + 1) (ho : s.offset ≤ line.length) :
    parse_next_string_field (line ++ ['\n']) ⟨s.buf ++ [NUL], s.offset⟩ =
      (parse_next_string_field line s).map
        (fun r => (r.1, ⟨r.2.buf ++ [NUL], r.2.offset⟩)) := by
  obtain ⟨b, o⟩ := s
  dsimp only at hb ho ⊢
  by_cases hsp : lineGet line o = ' '
  · have hlt := lineGet_space_lt hsp
    have hsp2 : lineGet (line ++ ['\n']) o = ' ' := by
      rw [lineGet, List.getD_append _ _ _ _ hlt]
      exact hsp
    unfold parse_next_string_field
    dsimp only
    rw [if_pos hsp2, if_pos hsp]
    rw [set_append_lt b [NUL] o NUL (by omega)]
    rfl
  · have hsp2 : ¬ lineGet (line ++ ['\n']) o = ' ' := by
      by_cases hoe : o < line.length
      · rw [lineGet, List.getD_append _ _ _ _ hoe]
        exact hsp
      · have hoeq : o = line.length := by omega
        rw [hoeq, lineGet]
        rw [show (line ++ ['\n']).getD line.length NUL = '\n' from
          getD_append_len line '\n' [] NUL]
        decide
    unfold parse_next_string_field
    dsimp only
    rw [if_neg hsp2, if_neg hsp]
    rw [show (line ++ ['\n']).drop o = line.drop o ++ ['\n'] from
      List.drop_append_of_le_length ho]
    rw [scanTok_snoc]
    cases htok : scanTok (line.drop o) with
    | none => rfl
    | some td =>
      obtain ⟨t, d⟩ := td
      dsimp only
      have hdb := (scanTok_bounds htok).2.1
      simp only [List.length_drop] at hdb
      obtain ⟨_, hdd, _⟩ := scanTok_eq htok
      have htl : t.length ≤ d := by omega
      have hwr : writeStr (b ++ [NUL]) o t = writeStr b o t ++ [NUL] := by
        apply writeStr_append_lt
        omega
      by_cases hc2 : lineGet line (o + d) = ' '
      · have hlt2 := lineGet_space_lt hc2
        have hc2' : lineGet (line ++ ['\n']) (o + d) = ' ' := by
          rw [lineGet, List.getD_append _ _ _ _ hlt2]
          exact hc2
        rw [if_pos hc2', if_pos hc2, hwr]
        rfl
      · have hc2' : ¬ lineGet (line ++ ['\n']) (o + d) = ' ' := by
          by_cases hoe : o + d < line.length
          · rw [lineGet, List.getD_append _ _ _ _ hoe]
            exact hc2
          · have hoeq : o + d = line.length := by omega
            rw [hoeq, lineGet]
            rw [show (line ++ ['\n']).getD line.length NUL = '\n' from
              getD_append_len line '\n' [] NUL]
            decide
        rw [if_neg hc2', if_neg hc2, hwr]
        rfl

theorem optLoopF_bounds {line : List Char} : ∀ (fuel : Nat) (s : PS) (k : Nat) {s4 : PS},
    optLoopF line fuel s k = some s4 →
    s4.offset ≤ line.length ∧ s4.buf.length = s.buf.length := by
  intro fuel
  induction fuel with
  | zero => intro s k s4 h; exact absurd h (by simp [optLoopF])
  | succ n ih =>
    intro s k s4 h
    cases hp : parse_next_string_field line s with
    | none => rw [optLoopF, hp] at h; exact absurd h (by simp)
    | some v =>
      obtain ⟨f, s'⟩ := v
      simp only [optLoopF, hp] at h
      obtain ⟨h1, h2, hf⟩ := pnsf_bounds hp
      have hbl := pnsf_buf_length hp
      by_cases hd : bufString s'.buf f = ['-']
      · rw [if_pos hd] at h
        have h4 := Option.some.inj h
        rw [← h4]
        constructor
        · exact h2
        · simp [hbl]
      · rw [if_neg hd] at h
        obtain ⟨ha, hb⟩ := ih _ _ h
        refine ⟨ha, ?_⟩
        rw [hb]
        by_cases hk : k > 0
        · rw [if_pos hk]
          show (s'.buf.set (f - 1) ' ').length = s.buf.length
          simp [hbl]
        · rw [if_neg hk]
          exact hbl

theorem optLoopF_snoc {line : List Char} :
    ∀ (fuel : Nat) (s : PS) (k : Nat), s.buf.length = line.length + 1 →
      s.offset ≤ line.length →
      optLoopF (line ++ ['\n']) fuel ⟨s.buf ++ [NUL], s.offset⟩ k =
        (optLoopF line fuel s k).map (fun v => (⟨v.buf ++ [NUL], v.offset⟩ : PS)) := by
  intro fuel
  induction fuel with
  | zero => intro s k _ _; rfl
  | succ n ih =>
    intro s k hb ho
    have hp2 := pnsf_snoc s hb ho
    cases hp : parse_next_string_field line s with
    | none =>
      rw [hp] at hp2
      simp only [Option.map] at hp2
      simp [optLoopF, hp, hp2]
    | some v =>
      obtain ⟨f, s'⟩ := v
      rw [hp] at hp2
      simp only [Option.map] at hp2
      simp only [optLoopF, hp, hp2]
      obtain ⟨h1, h2, hf⟩ := pnsf_bounds hp
      have hbs' : s'.buf.length = line.length + 1 := by rw [pnsf_buf_length hp, hb]
      rw [bufString_snoc_nul]
      by_cases hd : bufString s'.buf f = ['-']
      · rw [if_pos hd, if_pos hd]
        rw [set_append_lt s'.buf [NUL] f NUL (by omega)]
        rfl
      · rw [if_neg hd, if_neg hd]
        by_cases hk : k > 0
        · rw [if_pos hk, if_pos hk]
          rw [set_append_lt s'.buf [NUL] (f - 1) ' ' (by omega)]
          exact ih ⟨s'.buf.set (f - 1) ' ', s'.offset⟩ (k + 1)
            (by simp [hbs']) (by show s'.offset ≤ line.length; omega)
        · rw [if_neg hk, if_neg hk]
          exact ih ⟨s'.buf, s'.offset⟩ (k + 1) hbs'
            (by show s'.offset ≤ line.length; omega)

theorem optLoop_snoc {line : List Char} (s : PS) (k : Nat)
    (hb : s.buf.length = line.length + 1) (ho : s.offset ≤ line.length) :
    optLoop (line ++ ['\n']) ⟨s.buf ++ [NUL], s.offset⟩ k =
      (optLoop line s k).map (fun v => (⟨v.buf ++ [NUL], v.offset⟩ : PS)) := by
  unfold optLoop
  rw [@optLoopF_fuel line (line.length + 1 - s.offset)
    ((line ++ ['\n']).length + 1 - s.offset) s k le_rfl
    (by simp only [List.length_append, List.length_cons, List.length_nil]; omega)]
  exact optLoopF_snoc _ s k hb ho

theorem parseLeading_snoc (line : List Char) :
    (parseLeading (line ++ ['\n']) = none ∧ parseLeading line = none) ∨
    (∃ ids r0 d0 o0 s3, parseLeading line = some (ids, r0, d0, o0, s3) ∧
      parseLeading (line ++ ['\n']) =
        some (ids, r0, d0, o0, ⟨s3.buf ++ [NUL], s3.offset⟩) ∧
      s3.offset ≤ line.length ∧ s3.buf.length = line.length + 1) := by
  obtain ⟨hmap, hle⟩ := scanNumeric_snoc line
  have hrep : List.replicate (line.length + 1 + 1) NUL =
      List.replicate (line.length + 1) NUL ++ [NUL] :=
    List.replicate_succ' (line.length + 1) NUL
  cases hn : scanNumeric line with
  | none =>
    rw [hn] at hmap
    refine Or.inl ⟨?_, by simp [parseLeading, hn]⟩
    simp [parseLeading, hmap]
  | some v =>
    obtain ⟨ids, o0⟩ := v
    have ho0 := hle ids o0 hn
    rw [hn] at hmap
    simp only [Option.map] at hmap
    by_cases hend : o0 = line.length
    · rw [if_pos hend] at hmap
      refine Or.inl ⟨?_, ?_⟩
      · have hpn : parse_next_string_field (line ++ ['\n'])
            ⟨List.replicate (line.length + 1 + 1) NUL, o0 + 1⟩ = none :=
          pnsf_none_past (show (line ++ ['\n']).length ≤ o0 + 1 by
            simp only [List.length_append, List.length_cons, List.length_nil]
            omega)
        simp [parseLeading, hmap, hpn]
      · have hpn : parse_next_string_field line
            ⟨List.replicate (line.length + 1) NUL, o0⟩ = none :=
          pnsf_none_past (by show line.length ≤ o0; omega)
        simp [parseLeading, hn, hpn]
    · rw [if_neg hend] at hmap
      have ho0' : o0 ≤ line.length := ho0
      have hb0 : (List.replicate (line.length + 1) NUL : List Char).length =
          line.length + 1 := by simp
      have hp1s := pnsf_snoc ⟨List.replicate (line.length + 1) NUL, o0⟩ hb0 ho0'
      cases hp1 : parse_next_string_field line
          ⟨List.replicate (line.length + 1) NUL, o0⟩ with
      | none =>
        rw [hp1] at hp1s
        simp only [Option.map] at hp1s
        refine Or.inl ⟨?_, by simp [parseLeading, hn, hp1]⟩
        rw [show (⟨(⟨List.replicate (line.length + 1) NUL, o0⟩ : PS).buf ++ [NUL],
            (⟨List.replicate (line.length + 1) NUL, o0⟩ : PS).offset⟩ : PS) =
          ⟨List.replicate (line.length + 1) NUL ++ [NUL], o0⟩ from rfl] at hp1s
        rw [← hrep] at hp1s
        simp [parseLeading, hmap, hp1s]
      | some v1 =>
        obtain ⟨f1, s1⟩ := v1
        rw [hp1] at hp1s
        simp only [Option.map] at hp1s
        rw [show (⟨(⟨List.replicate (line.length + 1) NUL, o0⟩ : PS).buf ++ [NUL],
            (⟨List.replicate (line.length + 1) NUL, o0⟩ : PS).offset⟩ : PS) =
          ⟨List.replicate (line.length + 1) NUL ++ [NUL], o0⟩ from rfl] at hp1s
        rw [← hrep] at hp1s
        have hs1b : s1.buf.length = line.length + 1 := by
          rw [pnsf_buf_length hp1]
          simp
        have hs1o : s1.offset ≤ line.length := (pnsf_bounds hp1).2.1
        have hp2s := pnsf_snoc s1 hs1b hs1o
        cases hp2 : parse_next_string_field line s1 with
        | none =>
          rw [hp2] at hp2s
          simp only [Option.map] at hp2s
          refine Or.inl ⟨?_, by simp [parseLeading, hn, hp1, hp2]⟩
          simp [parseLeading, hmap, hp1s, hp2s]
        | some v2 =>
          obtain ⟨f2, s2⟩ := v2
          rw [hp2] at hp2s
          simp only [Option.map] at hp2s
          have hs2b : s2.buf.length = line.length + 1 := by
            rw [pnsf_buf_length hp2, hs1b]
          have hs2o : s2.offset ≤ line.length := (pnsf_bounds hp2).2.1
          have hp3s := pnsf_snoc s2 hs2b hs2o
          cases hp3 : parse_next_string_field line s2 with
          | none =>
            rw [hp3] at hp3s
            simp only [Option.map] at hp3s
            refine Or.inl ⟨?_, by simp [parseLeading, hn, hp1, hp2, hp3]⟩
            simp [parseLeading, hmap, hp1s, hp2s, hp3s]
          | some v3 =>
            obtain ⟨f3, s3⟩ := v3
            rw [hp3] at hp3s
            simp only [Option.map] at hp3s
            have hs3b : s3.buf.length = line.length + 1 := by
              rw [pnsf_buf_length hp3, hs2b]
            have hs3o : s3.offset ≤ line.length := (pnsf_bounds hp3).2.1
            refine Or.inr ⟨ids, f1, f2, f3, s3, ?_, ?_, hs3o, hs3b⟩
            · simp [parseLeading, hn, hp1, hp2, hp3]
            · simp [parseLeading, hmap, hp1s, hp2s, hp3s]

/-!
Bounds on the write footprint of the parser (the buffer indices stored to). -/

theorem pnsfWrites_lt {line : List Char} (s : PS) :
    ∀ i ∈ pnsfWrites line s, i < line.length + 1 := by
  intro i hi
  unfold pnsfWrites at hi
  by_cases hsp : lineGet line s.offset = ' '
  · rw [if_pos hsp] at hi
    have hlt := lineGet_space_lt hsp
    simp only [List.mem_singleton] at hi
    omega
  · rw [if_neg hsp] at hi
    cases htok : scanTok (line.drop s.offset) with
    | none =>
      rw [htok] at hi
      simp at hi
    | some td =>
      obtain ⟨t, d⟩ := td
      rw [htok] at hi
      obtain ⟨h1, h2, hne⟩ := scanTok_bounds htok
      obtain ⟨_, hd, _⟩ := scanTok_eq htok
      have hlen : (line.drop s.offset).length = line.length - s.offset := by simp
      rw [hlen] at h2
      have hmem := List.mem_range'_1.mp hi
      omega

theorem optLoopWritesF_lt {line : List Char} :
    ∀ (fuel : Nat) (s : PS) (k : Nat), ∀ i ∈ optLoopWritesF line fuel s k,
      i < line.length + 1 := by
  intro fuel
  induction fuel with
  | zero => intro s k i hi; simp [optLoopWritesF] at hi
  | succ n ih =>
    intro s k i hi
    cases hp : parse_next_string_field line s with
    | none => simp [optLoopWritesF, hp] at hi
    | some v =>
      obtain ⟨f, s'⟩ := v
      simp only [optLoopWritesF, hp] at hi
      obtain ⟨hb1, hb2, hbf⟩ := pnsf_bounds hp
      by_cases hd : bufString s'.buf f = ['-']
      · rw [if_pos hd] at hi
        simp only [List.mem_append, List.mem_singleton] at hi
        rcases hi with hi | hi
        · exact pnsfWrites_lt s i hi
        · omega
      · rw [if_neg hd] at hi
        simp only [List.mem_append] at hi
        rcases hi with (hi | hi) | hi
        · exact pnsfWrites_lt s i hi
        · by_cases hk : k > 0
          · rw [if_pos hk] at hi
            simp only [List.mem_singleton] at hi
            omega
          · rw [if_neg hk] at hi
            simp at hi
        · exact ih _ _ i hi

theorem optLoopWrites_lt {line : List Char} (s : PS) (k : Nat) :
    ∀ i ∈ optLoopWrites line s k, i < line.length + 1 :=
  optLoopWritesF_lt _ s k

/-!
The claims. -/

/-- C1 (counterexample): with two `Root hash` lines in the output, the spec's
first-line reading extracts the first line's value, but the code returns the last
line's value. -/
theorem C1_counterexample :
    specFirstRootHash "Root hash: aaa\nRoot hash: bbb".toList = some "aaa".toList ∧
    getRootHashFromOutput "Root hash: aaa\nRoot hash: bbb".toList =
      GoRes.ok "bbb".toList := by
  decide

/-- C1 (amended): the extracted root hash is the trimmed after-first-colon value of
the LAST scanned line beginning with `Root hash`, for every output in which every
such line contains a colon, no line reaches the 64 KiB scanner limit
(`bufio.ErrTooLong`), and the last matching line's value is nonempty after
trimming. -/
theorem C1_extracts_last_root_hash (output : List Char) (h : List Char)
    (hc : rhColonOK output = true) (htl : scanErrTooLong output = false)
    (hlast : lastRootHash (scanLines output) = some h) (hne : h ≠ []) :
    getRootHashFromOutput output = GoRes.ok h := by
  unfold getRootHashFromOutput
  rw [rootHashScan_eq _ _ (rhColonOK_colon hc), hlast]
  simp only [Option.getD_some]
  rw [if_neg (by simp [htl]), if_neg (by simpa [List.isEmpty_iff] using hne)]

/-- C1 (witness): the amended theorem at a concrete two-`Root hash`-line output. -/
theorem C1_extracts_last_root_hash_witness :
    getRootHashFromOutput "Root hash: xx\nRoot hash: yy".toList =
      GoRes.ok "yy".toList :=
  C1_extracts_last_root_hash _ _ (by decide) (by decide) (by decide) (by decide)

/-- C2: the two scenario lines of the spec parse to exactly the stated entries; in
particular two optional tokens come back joined by a single space. -/
theorem C2_scenario_lines :
    sc_parse_mountinfo_entry
        "36 35 98:0 /mnt1 /mnt2 rw,noatime master:1 - ext3 /dev/root rw,errors=continue".toList =
      some { mount_id := 36, parent_id := 35, dev_major := 98, dev_minor := 0,
             root := "/mnt1".toList, mount_dir := "/mnt2".toList,
             mount_opts := "rw,noatime".toList, optional_fields := "master:1".toList,
             fs_type := "ext3".toList, mount_source := "/dev/root".toList,
             super_opts := "rw,errors=continue".toList } ∧
    sc_parse_mountinfo_entry
        "36 35 98:0 /mnt1 /mnt2 rw,noatime master:1 shared:2 - ext3 /dev/root rw,errors=continue".toList =
      some { mount_id := 36, parent_id := 35, dev_major := 98, dev_minor := 0,
             root := "/mnt1".toList, mount_dir := "/mnt2".toList,
             mount_opts := "rw,noatime".toList,
             optional_fields := "master:1 shared:2".toList,
             fs_type := "ext3".toList, mount_source := "/dev/root".toList,
             super_opts := "rw,errors=continue".toList } := by
  decide

/-- C3: a NUL-free line with no whitespace-delimited `-` token after the three
leading string fields fails entry parsing, and any table whose line source contains
such a line fails as a whole (no partial table), whatever the other lines are. -/
theorem C3_missing_separator_fails (line : List Char) (ls1 ls2 : List (List Char))
    (hnul : NUL ∉ line) (hsep : noSeparatorAfterFields line = true) :
    sc_parse_mountinfo_entry line = none ∧
    sc_parse_mountinfo (ls1 ++ line :: ls2) = none := by
  have hentry : sc_parse_mountinfo_entry line = none := by
    cases hl : parseLeading line with
    | none => simp [sc_parse_mountinfo_entry, hl]
    | some v =>
      obtain ⟨ids, r0, d0, o0', s3⟩ := v
      have hall : (lineWords (line.drop s3.offset)).all
          (fun t => decide (t ≠ ['-'])) = true := by
        have h0 := hsep
        simp only [noSeparatorAfterFields, hl] at h0
        exact h0
      have hw : ∀ t ∈ lineWords (line.drop s3.offset), t ≠ ['-'] := by
        intro t ht
        have h2 := List.all_eq_true.mp hall t ht
        simpa using h2
      have ho := optLoop_none (k := 0) hnul (parseLeading_buf_length hl) hw
      simp [sc_parse_mountinfo_entry, hl, ho]
  refine ⟨hentry, ?_⟩
  induction ls1 with
  | nil => simp [sc_parse_mountinfo, hentry]
  | cons a as ih =>
    cases ha : sc_parse_mountinfo_entry a with
    | none => simp [sc_parse_mountinfo, ha]
    | some e => simp [sc_parse_mountinfo, ha, ih]

/-- C3 (witness): the missing-separator theorem at a concrete well-formed line with
no `-` token, alone in its source. -/
theorem C3_missing_separator_fails_witness :
    ¬ NUL ∈ "36 35 98:0 /mnt1 /mnt2 rw,noatime ext3 /dev/root rw".toList ∧
    noSeparatorAfterFields "36 35 98:0 /mnt1 /mnt2 rw,noatime ext3 /dev/root rw".toList
      = true ∧
    (sc_parse_mountinfo_entry
        "36 35 98:0 /mnt1 /mnt2 rw,noatime ext3 /dev/root rw".toList = none ∧
      sc_parse_mountinfo
        ([] ++ "36 35 98:0 /mnt1 /mnt2 rw,noatime ext3 /dev/root rw".toList :: []) =
        none) :=
  ⟨by decide, by decide,
    C3_missing_separator_fails _ [] [] (by decide) (by decide)⟩

/-- C4 (counterexample): the line `"+36 35 98:0 / / rw - ext3 none rw"` parses
successfully (the `%d` conversion accepts the `+` sign), but re-joining the entry's
fields renders `mount_id` as `36`, so the reconstruction differs from the original
line even though the line has no optional fields at all. -/
theorem C4_counterexample :
    sc_parse_mountinfo_entry "+36 35 98:0 / / rw - ext3 none rw".toList =
      some { mount_id := 36, parent_id := 35, dev_major := 98, dev_minor := 0,
             root := "/".toList, mount_dir := "/".toList, mount_opts := "rw".toList,
             optional_fields := [], fs_type := "ext3".toList,
             mount_source := "none".toList, super_opts := "rw".toList } ∧
    reconstructLine ({ mount_id := 36, parent_id := 35, dev_major := 98,
                       dev_minor := 0, root := "/".toList, mount_dir := "/".toList,
                       mount_opts := "rw".toList, optional_fields := [],
                       fs_type := "ext3".toList, mount_source := "none".toList,
                       super_opts := "rw".toList } : sc_mountinfo_entry) ≠
      "+36 35 98:0 / / rw - ext3 none rw".toList := by
  constructor
  · decide
  · rw [show reconstructLine ({ mount_id := 36, parent_id := 35, dev_major := 98,
                                dev_minor := 0, root := "/".toList,
                                mount_dir := "/".toList, mount_opts := "rw".toList,
                                optional_fields := [], fs_type := "ext3".toList,
                                mount_source := "none".toList,
                                super_opts := "rw".toList } : sc_mountinfo_entry) =
        "36 35 98:0 / / rw - ext3 none rw".toList from by
      simp [reconstructLine, intChars, natChars, Nat.digits_def']]
    decide

/-- C4 (amended): lines in the canonical grammar of spec section 6 round-trip: for
every such line (single-space separators, nonempty optional tokens), re-joining the
parsed entry's fields with single spaces and the numeric prefix reproduces the line
exactly. -/
theorem C4_roundtrip (m p maj mnr : Nat) (root dir opts : List Char)
    (optFs : List (List Char)) (fs src sup : List Char)
    (hm : m < 2 ^ 31) (hp : p < 2 ^ 31) (hmaj : maj < 2 ^ 32) (hmnr : mnr < 2 ^ 32)
    (hroot : isTok root = true) (hrne : root ≠ [])
    (hdir : isTok dir = true) (hopts : isTok opts = true)
    (hoptFs : ∀ t ∈ optFs, isTok t = true ∧ t ≠ ['-'] ∧ t ≠ [])
    (hfs : isTok fs = true) (hsrc : isTok src = true)
    (hsup : isTok sup = true) (hsne : sup ≠ []) :
    (sc_parse_mountinfo_entry (mkLine m p maj mnr root dir opts optFs fs src sup)).map
        reconstructLine =
      some (mkLine m p maj mnr root dir opts optFs fs src sup) := by
  rw [parse_mkLine m p maj mnr root dir opts optFs fs src sup hm hp hmaj hmnr hroot hrne
    hdir hopts (fun t ht => ⟨(hoptFs t ht).1, (hoptFs t ht).2.1⟩) hfs hsrc hsup hsne]
  refine congrArg some ?_
  unfold reconstructLine
  dsimp only
  rw [intChars_coe, intChars_coe]
  unfold mkLine
  cases optFs with
  | nil =>
    rw [show joinSp ([] : List (List Char)) = [] from rfl, if_pos rfl]
    simp [renderOpts]
  | cons t ts =>
    have htne : t ≠ [] := (hoptFs t (by simp)).2.2
    rw [if_neg (joinSp_ne_nil htne)]
    rw [renderOpts_eq_joinSp (t :: ts) (by simp)]
    simp

/-- C4 (witness): the amended round-trip theorem at a concrete canonical line with
one optional field. -/
theorem C4_roundtrip_witness :
    (sc_parse_mountinfo_entry (mkLine 36 35 98 0 "/mnt1".toList "/mnt2".toList
        "rw".toList ["master:1".toList] "ext3".toList "none".toList "rw".toList)).map
        reconstructLine =
      some (mkLine 36 35 98 0 "/mnt1".toList "/mnt2".toList "rw".toList
        ["master:1".toList] "ext3".toList "none".toList "rw".toList) :=
  C4_roundtrip 36 35 98 0 "/mnt1".toList "/mnt2".toList "rw".toList
    ["master:1".toList] "ext3".toList "none".toList "rw".toList (by decide) (by decide)
    (by decide) (by decide) (by decide) (by decide) (by decide) (by decide)
    (by decide) (by decide) (by decide) (by decide) (by decide)

/-- C10: every buffer index stored to by `sc_parse_mountinfo_entry` — over the whole
parse, successful or failed — lies strictly below `line.length + 1`, the size of the
entry's own freshly allocated buffer; the input line itself is taken immutably by
the model (no write ever targets it), so the caller's line is byte-for-byte
unchanged. -/
theorem C10_writes_within_buffer (line : List Char) :
    ∀ i ∈ entryWrites line, i < line.length + 1 := by
  intro i hi
  cases hn : scanNumeric line with
  | none => simp [entryWrites, hn] at hi
  | some v =>
    obtain ⟨ids, o0⟩ := v
    simp only [entryWrites, hn] at hi
    rcases List.mem_append.mp hi with hi | hi
    · exact pnsfWrites_lt _ i hi
    cases hp1 : parse_next_string_field line ⟨List.replicate (line.length + 1) NUL, o0⟩ with
    | none => simp [hp1] at hi
    | some v1 =>
    obtain ⟨f1, s1⟩ := v1
    simp only [hp1] at hi
    rcases List.mem_append.mp hi with hi | hi
    · exact pnsfWrites_lt _ i hi
    cases hp2 : parse_next_string_field line s1 with
    | none => simp [hp2] at hi
    | some v2 =>
    obtain ⟨f2, s2⟩ := v2
    simp only [hp2] at hi
    rcases List.mem_append.mp hi with hi | hi
    · exact pnsfWrites_lt _ i hi
    cases hp3 : parse_next_string_field line s2 with
    | none => simp [hp3] at hi
    | some v3 =>
    obtain ⟨f3, s3⟩ := v3
    simp only [hp3] at hi
    rcases List.mem_append.mp hi with hi | hi
    · exact optLoopWrites_lt _ _ i hi
    cases ho : optLoop line s3 0 with
    | none => simp [ho] at hi
    | some s4 =>
    simp only [ho] at hi
    rcases List.mem_append.mp hi with hi | hi
    · exact pnsfWrites_lt _ i hi
    cases hp5 : parse_next_string_field line s4 with
    | none => simp [hp5] at hi
    | some v5 =>
    obtain ⟨f5, s5⟩ := v5
    simp only [hp5] at hi
    rcases List.mem_append.mp hi with hi | hi
    · exact pnsfWrites_lt _ i hi
    cases hp6 : parse_next_string_field line s5 with
    | none => simp [hp6] at hi
    | some v6 =>
    obtain ⟨f6, s6⟩ := v6
    simp only [hp6] at hi
    rcases List.mem_append.mp hi with hi | hi
    · exact pnsfWrites_lt _ i hi
    cases hp7 : parse_next_string_field line s6 with
    | none => simp [hp7] at hi
    | some v7 =>
    obtain ⟨f7, s7⟩ := v7
    simp only [hp7] at hi
    simp at hi

/-- C10 (witness): a concrete store of the parse of a concrete line lies within the
buffer bound. -/
theorem C10_writes_within_buffer_witness :
    8 ∈ entryWrites "1 2 3:4 r d o - f s u".toList ∧
    8 < "1 2 3:4 r d o - f s u".toList.length + 1 :=
  ⟨by decide, C10_writes_within_buffer "1 2 3:4 r d o - f s u".toList 8 (by decide)⟩

/-- C5: parsing a line with one trailing newline gives exactly the same outcome as
parsing the line without it — both fail, or both succeed with identical values in
all eleven fields. -/
theorem C5_trailing_newline (line : List Char) :
    sc_parse_mountinfo_entry (line ++ ['\n']) = sc_parse_mountinfo_entry line := by
  rcases parseLeading_snoc line with ⟨ha, hl⟩ |
    ⟨ids, r0, d0, o0, s3, hl, ha, hoff, hbuf⟩
  · simp [sc_parse_mountinfo_entry, ha, hl]
  · obtain ⟨a, b, c, d⟩ := ids
    simp only [sc_parse_mountinfo_entry, ha, hl]
    rw [optLoop_snoc s3 0 hbuf hoff]
    cases ho : optLoop line s3 0 with
    | none => simp
    | some s4 =>
      simp only [Option.map]
      obtain ⟨ho4, hb4⟩ := optLoopF_bounds (line.length + 1 - s3.offset) s3 0 ho
      have hb4' : s4.buf.length = line.length + 1 := by rw [hb4, hbuf]
      have hp5s := pnsf_snoc s4 hb4' ho4
      cases hp5 : parse_next_string_field line s4 with
      | none =>
        rw [hp5] at hp5s
        simp only [Option.map] at hp5s
        simp [hp5s, hp5]
      | some v5 =>
        obtain ⟨f5, s5⟩ := v5
        rw [hp5] at hp5s
        simp only [Option.map] at hp5s
        have hs5b : s5.buf.length = line.length + 1 := by
          rw [pnsf_buf_length hp5, hb4']
        have hs5o : s5.offset ≤ line.length := (pnsf_bounds hp5).2.1
        have hp6s := pnsf_snoc s5 hs5b hs5o
        cases hp6 : parse_next_string_field line s5 with
        | none =>
          rw [hp6] at hp6s
          simp only [Option.map] at hp6s
          simp [hp5s, hp6s, hp5, hp6]
        | some v6 =>
          obtain ⟨f6, s6⟩ := v6
          rw [hp6] at hp6s
          simp only [Option.map] at hp6s
          have hs6b : s6.buf.length = line.length + 1 := by
            rw [pnsf_buf_length hp6, hs5b]
          have hs6o : s6.offset ≤ line.length := (pnsf_bounds hp6).2.1
          have hp7s := pnsf_snoc s6 hs6b hs6o
          cases hp7 : parse_next_string_field line s6 with
          | none =>
            rw [hp7] at hp7s
            simp only [Option.map] at hp7s
            simp [hp5s, hp6s, hp7s, hp5, hp6, hp7]
          | some v7 =>
            obtain ⟨f7, s7⟩ := v7
            rw [hp7] at hp7s
            simp only [Option.map] at hp7s
            simp only [hp5s, hp6s, hp7s, hp5, hp6, hp7]
            simp only [bufString_snoc_nul]

/-- C6: a canonical line whose `mount_opts` token is immediately followed by the `-`
separator parses successfully, and the entry's `optional_fields` is the zero-length
string. -/
theorem C6_empty_optional_fields (m p maj mnr : Nat) (root dir opts fs src sup : List Char)
    (hm : m < 2 ^ 31) (hp : p < 2 ^ 31) (hmaj : maj < 2 ^ 32) (hmnr : mnr < 2 ^ 32)
    (hroot : isTok root = true) (hrne : root ≠ [])
    (hdir : isTok dir = true) (hopts : isTok opts = true)
    (hfs : isTok fs = true) (hsrc : isTok src = true)
    (hsup : isTok sup = true) (hsne : sup ≠ []) :
    sc_parse_mountinfo_entry (mkLine m p maj mnr root dir opts [] fs src sup) =
      some { mount_id := (m : Int), parent_id := (p : Int), dev_major := maj,
             dev_minor := mnr, root := root, mount_dir := dir, mount_opts := opts,
             optional_fields := [], fs_type := fs, mount_source := src,
             super_opts := sup } :=
  parse_mkLine m p maj mnr root dir opts [] fs src sup hm hp hmaj hmnr hroot hrne hdir
    hopts (by simp) hfs hsrc hsup hsne

/-- C6 (witness): the empty-optional-region theorem at a concrete line. -/
theorem C6_empty_optional_fields_witness :
    sc_parse_mountinfo_entry (mkLine 36 35 98 0 "/mnt1".toList "/mnt2".toList
        "rw".toList [] "ext3".toList "none".toList "rw".toList) =
      some { mount_id := (36 : Int), parent_id := (35 : Int), dev_major := 98,
             dev_minor := 0, root := "/mnt1".toList, mount_dir := "/mnt2".toList,
             mount_opts := "rw".toList, optional_fields := [],
             fs_type := "ext3".toList, mount_source := "none".toList,
             super_opts := "rw".toList } :=
  C6_empty_optional_fields 36 35 98 0 "/mnt1".toList "/mnt2".toList "rw".toList
    "ext3".toList "none".toList "rw".toList (by decide) (by decide) (by decide)
    (by decide) (by decide) (by decide) (by decide) (by decide) (by decide)
    (by decide) (by decide) (by decide)

/-- C7: string fields that are textually empty in the source line (immediately
followed by a delimiter) are recorded as zero-length strings, not as failures: a
canonical line with empty `mount_dir`, `mount_opts`, `fs_type` and `mount_source`
parses successfully with those fields equal to the empty string (in this model a
field is a `List Char`, total on success, so no field is ever absent). -/
theorem C7_empty_fields_ok (m p maj mnr : Nat) (root sup : List Char)
    (optFs : List (List Char))
    (hm : m < 2 ^ 31) (hp : p < 2 ^ 31) (hmaj : maj < 2 ^ 32) (hmnr : mnr < 2 ^ 32)
    (hroot : isTok root = true) (hrne : root ≠ [])
    (hoptFs : ∀ t ∈ optFs, isTok t = true ∧ t ≠ ['-'])
    (hsup : isTok sup = true) (hsne : sup ≠ []) :
    sc_parse_mountinfo_entry (mkLine m p maj mnr root [] [] optFs [] [] sup) =
      some { mount_id := (m : Int), parent_id := (p : Int), dev_major := maj,
             dev_minor := mnr, root := root, mount_dir := [], mount_opts := [],
             optional_fields := joinSp optFs, fs_type := [], mount_source := [],
             super_opts := sup } :=
  parse_mkLine m p maj mnr root [] [] optFs [] [] sup hm hp hmaj hmnr hroot hrne
    rfl rfl hoptFs rfl rfl hsup hsne

/-- C7 (witness): the empty-fields theorem at a concrete line. -/
theorem C7_empty_fields_ok_witness :
    sc_parse_mountinfo_entry (mkLine 1 2 3 4 "/".toList [] [] [] [] [] "rw".toList) =
      some { mount_id := (1 : Int), parent_id := (2 : Int), dev_major := 3,
             dev_minor := 4, root := "/".toList, mount_dir := [], mount_opts := [],
             optional_fields := joinSp [], fs_type := [], mount_source := [],
             super_opts := "rw".toList } :=
  C7_empty_fields_ok 1 2 3 4 "/".toList "rw".toList [] (by decide) (by decide)
    (by decide) (by decide) (by decide) (by decide) (by simp) (by decide) (by decide)

/-- C8 (counterexample): an output whose `Root hash` line has no colon makes the
extraction panic — the operation neither fails with an error nor returns an `Info`,
so the claimed failure/success dichotomy does not hold as stated. -/
theorem C8_counterexample :
    Format (Except.ok "Root hash".toList) = GoRes.panic := by
  decide

/-- C8 (amended): provided every scanned `Root hash` line of the output contains a
colon, the operation fails with an error iff the external command failed, or a line
reaches the 64 KiB scanner limit (`bufio.ErrTooLong`), or the last scanned
`Root hash` line's trimmed value is empty or absent; and on success the returned
`Info`'s `RootHash` is nonempty. -/
theorem C8_failure_iff (cmdResult : Except (List Char) (List Char))
    (hc : formatColonOK cmdResult = true) :
    ((∃ e, Format cmdResult = GoRes.err e) ↔
      (∃ e, cmdResult = Except.error e) ∨
      (∃ output, cmdResult = Except.ok output ∧
        (scanErrTooLong output = true ∨
          (lastRootHash (scanLines output)).getD [] = []))) ∧
    (∀ i, Format cmdResult = GoRes.ok i → i.RootHash ≠ []) := by
  cases cmdResult with
  | error e =>
    refine ⟨⟨fun _ => Or.inl ⟨e, rfl⟩, fun _ => ⟨e, rfl⟩⟩, ?_⟩
    intro i hi
    exact absurd hi (by simp [Format])
  | ok output =>
    have hget : getRootHashFromOutput output =
        if scanErrTooLong output then
          GoRes.err "bufio.Scanner: token too long".toList
        else if ((lastRootHash (scanLines output)).getD []).isEmpty then
          GoRes.err "empty root hash".toList
        else GoRes.ok ((lastRootHash (scanLines output)).getD []) := by
      unfold getRootHashFromOutput
      rw [rootHashScan_eq _ _ (rhColonOK_colon (by simpa [formatColonOK] using hc))]
    by_cases htl : scanErrTooLong output = true
    · have hfmt : Format (Except.ok output) =
          GoRes.err "bufio.Scanner: token too long".toList := by
        show (match getRootHashFromOutput output with
          | GoRes.panic => GoRes.panic
          | GoRes.err e => GoRes.err e
          | GoRes.ok h => GoRes.ok (Info.mk h)) = _
        rw [hget, if_pos htl]
      refine ⟨⟨fun _ => Or.inr ⟨output, rfl, Or.inl htl⟩, fun _ => ⟨_, hfmt⟩⟩, ?_⟩
      intro i hi
      rw [hfmt] at hi
      exact absurd hi (by simp)
    · by_cases hemp : (lastRootHash (scanLines output)).getD [] = []
      · have hfmt : Format (Except.ok output) = GoRes.err "empty root hash".toList := by
          show (match getRootHashFromOutput output with
            | GoRes.panic => GoRes.panic
            | GoRes.err e => GoRes.err e
            | GoRes.ok h => GoRes.ok (Info.mk h)) = _
          rw [hget, if_neg htl, if_pos (by simpa [List.isEmpty_iff] using hemp)]
        refine ⟨⟨fun _ => Or.inr ⟨output, rfl, Or.inr hemp⟩, fun _ => ⟨_, hfmt⟩⟩, ?_⟩
        intro i hi
        rw [hfmt] at hi
        exact absurd hi (by simp)
      · have hfmt : Format (Except.ok output) =
            GoRes.ok ⟨(lastRootHash (scanLines output)).getD []⟩ := by
          show (match getRootHashFromOutput output with
            | GoRes.panic => GoRes.panic
            | GoRes.err e => GoRes.err e
            | GoRes.ok h => GoRes.ok (Info.mk h)) = _
          rw [hget, if_neg htl, if_neg (by simpa [List.isEmpty_iff] using hemp)]
        constructor
        · constructor
          · intro ⟨e, he⟩
            rw [hfmt] at he
            exact absurd he (by simp)
          · intro hor
            rcases hor with ⟨e, he⟩ | ⟨o, ho, htl2 | hlast⟩
            · exact absurd he (by simp)
            · rw [show o = output from (Except.ok.inj ho).symm] at htl2
              exact absurd htl2 htl
            · rw [show o = output from (Except.ok.inj ho).symm] at hlast
              exact absurd hlast hemp
        · intro i hi
          rw [hfmt] at hi
          have hieq : i = ⟨(lastRootHash (scanLines output)).getD []⟩ :=
            (GoRes.ok.inj hi).symm
          rw [hieq]
          simpa using hemp

/-- C8 (witness): the amended theorem at a concrete successful command outcome. -/
theorem C8_failure_iff_witness :
    ((∃ e, Format (Except.ok "Root hash: abc".toList) = GoRes.err e) ↔
      (∃ e, (Except.ok "Root hash: abc".toList : Except (List Char) (List Char)) =
        Except.error e) ∨
      (∃ output, (Except.ok "Root hash: abc".toList : Except (List Char) (List Char)) =
        Except.ok output ∧
        (scanErrTooLong output = true ∨
          (lastRootHash (scanLines output)).getD [] = []))) ∧
    (∀ i, Format (Except.ok "Root hash: abc".toList) = GoRes.ok i → i.RootHash ≠ []) :=
  C8_failure_iff (Except.ok "Root hash: abc".toList) (by decide)

/-- C9: the extraction is not total — on an output whose `Root hash` line contains
no colon, indexing the one-element split at position 1 is out of range, and the
function panics instead of returning a value or an error. -/
theorem C9_colonless_line_panics :
    getRootHashFromOutput "Root hash".toList = GoRes.panic := by
  decide

end Snapd
